import Mathlib

/-!
# CompFinance: barrier payoff evaluator and Gaussian approximations

A shallow embedding of `mcPrd.h` (the up-and-out call `UOC<T>`) and of `gaussians.h`
(`normalDens`, `normalCdf`, `invNormalCdf`).

Numbers: the C++ `double`, the type `Time` and the template parameter `T` are all read as
elements of one linearly ordered field `α` (`ℚ` for evaluation, `ℝ` for the analytic
statements).  `convert<...>` is then the identity.  The source is embedded twice: with exact
arithmetic (`UOC.ctor`, `UOC.payoff`, `normalCdf`, `invNormalCdf`), and with every `double`
operation followed by a rounding function `rnd` (`UOC.ctorR`, `UOC.payoffR`, `normalCdfR`,
`invNormalCdfR`), of which `roundDouble` is the IEEE 754 binary64 rounding.
-/

namespace CompFinance

section Product

variable {α : Type} [LinearOrderedField α]

/-- Modelled from the spec: `scenario<T>` is declared in `mcBase.h`, which is not among the
sources; it is "one observation of the underlying's spot price", and `UOC::payoff` reads only
its member `spot`. -/
structure scenario (α : Type) where
  spot : α

/-- The constant `ONE_HOUR` defined at line 21 of `mcPrd.h`: `0.000114469`. -/
def ONE_HOUR : α := 114469 / 1000000000

/-- The data members of `UOC<T>` (`mcPrd.h`, lines 26-29). -/
structure UOC (α : Type) where
  myStrike : α
  myBarrier : α
  myMaturity : α
  myTimeline : List α

/-- The `while` loop of the constructor (`mcPrd.h`, lines 47-51), with the running time `t` and
the vector built so far as state.  Each iteration consumes one unit of fuel; `none` means the
fuel ran out while the loop condition still held. -/
def UOC.whileLoop (myMaturity monitorFreq : α) : Nat → α → List α → Option (List α)
  | 0, t, tl => if myMaturity - t > ONE_HOUR then none else some tl
  | fuel + 1, t, tl =>
    if myMaturity - t > ONE_HOUR then
      UOC.whileLoop myMaturity monitorFreq fuel (t + monitorFreq) (tl ++ [t])
    else some tl

/-- The constructor `UOC::UOC` (`mcPrd.h`, lines 36-55).  The global `systemTime` of `mcBase.h`
is a parameter.  `none` means the loop did not finish within `fuel` iterations. -/
def UOC.ctor (systemTime : α) (fuel : Nat) (strike barrier maturity monitorFreq : α) :
    Option (UOC α) :=
  match UOC.whileLoop maturity monitorFreq fuel (systemTime + monitorFreq) [systemTime] with
  | none => none
  | some tl =>
    match tl.getLast? with
    | none => some ⟨strike, barrier, maturity, tl⟩
    | some back =>
      if back < maturity then some ⟨strike, barrier, maturity, tl ++ [maturity]⟩
      else some ⟨strike, barrier, maturity, tl⟩

/-- The accessor `UOC::timeline` (`mcPrd.h`, lines 64-67). -/
def UOC.timeline (self : UOC α) : List α := self.myTimeline

/-- The `for` loop of `UOC::payoff` (`mcPrd.h`, lines 83-93) over the observations still to be
visited, with the current value of `alive`.  `none` is the early `return convert<T>(0.0)` of
line 86; `some a` is the value of `alive` when the loop runs to its end. -/
def UOC.forLoop (myBarrier smooth : α) : List (scenario α) → α → Option α
  | [], alive => some alive
  | s :: rest, alive =>
    if s.spot > myBarrier + smooth then none
    else if s.spot > myBarrier - smooth then
      UOC.forLoop myBarrier smooth rest (alive * ((myBarrier + smooth - s.spot) / (2 * smooth)))
    else UOC.forLoop myBarrier smooth rest alive

/-- The method `UOC::payoff` (`mcPrd.h`, lines 70-97).  On the empty path `path[0]` is out of
range (undefined behaviour in C++): the model returns `none`. -/
def UOC.payoff (self : UOC α) (path : List (scenario α)) : Option α :=
  match path with
  | [] => none
  | s0 :: rest =>
    let smooth := s0.spot * 0.01
    match UOC.forLoop self.myBarrier smooth (s0 :: rest) 1 with
    | none => some 0
    | some alive => some (alive * max (((s0 :: rest).getLast (List.cons_ne_nil s0 rest)).spot - self.myStrike) 0)

end Product

section Gaussians

variable {α : Type} [LinearOrderedField α]

/-- The function `normalDens` (`gaussians.h`, lines 13-16).  The library function `exp` of
`<math.h>` is a parameter; the theorems about real numbers take `Real.exp` for it. -/
def normalDens (exp : α → α) (x : α) : α :=
  if x < -10.0 ∨ 10.0 < x then 0.0 else exp (-0.5 * x * x) / 2.506628274631

/-- The function `normalCdf` (`gaussians.h`, lines 21-41), with the same parameter `exp`.  The
recursive call of line 25 is made on `-x` with `x < 0`, after which no further call occurs. -/
def normalCdf (exp : α → α) (x : α) : α :=
  if x < -10.0 then 0.0
  else if x > 10.0 then 1.0
  else if h : x < 0.0 then 1.0 - normalCdf exp (-x)
  else
    let p : α := 0.2316419
    let b1 : α := 0.319381530
    let b2 : α := -0.356563782
    let b3 : α := 1.781477937
    let b4 : α := -1.821255978
    let b5 : α := 1.330274429
    let t := 1.0 / (1.0 + p * x)
    let pol := t * (b1 + t * (b2 + t * (b3 + t * (b4 + t * b5))))
    let pdf := normalDens exp x
    1.0 - pdf * pol
termination_by (if x < 0.0 then 1 else 0 : Nat)
decreasing_by
  have h2 : ¬ (-x < 0.0) := by
    norm_num at h ⊢
    exact h.le
  simp [h, h2]

/-- The polynomial `pol` of `normalCdf` (`gaussians.h`, lines 27-36) as a function of `t`, with
the coefficients `b1, ..., b5` of the source.  A quantity of the proofs. -/
def normalCdfPol (t : α) : α :=
  t * (0.319381530 + t * (-0.356563782 + t * (1.781477937 + t * (-1.821255978 + t * 1.330274429))))

/-- The product `pdf * pol` that `normalCdf` subtracts from 1 at line 40, as a function of `x`
in the polynomial regime `0 ≤ x ≤ 10`.  A quantity of the proofs. -/
def normalCdfTail (exp : α → α) (x : α) : α :=
  exp (-0.5 * x * x) / 2.506628274631 * normalCdfPol (1 / (1 + 0.2316419 * x))

/-- The function `invNormalCdf` (`gaussians.h`, lines 47-87).  The library function `log` of
`<math.h>` is a parameter (the theorems about real numbers take `Real.log` for it) and `fabs`
is the absolute value.  The variable `r`, assigned several times in the source, is bound anew
at each assignment. -/
def invNormalCdf (log : α → α) (p : α) : α :=
  let sup : Bool := decide (p > 0.5)
  let up : α := if sup then 1.0 - p else p
  let a0 : α := 2.50662823884
  let a1 : α := -18.61500062529
  let a2 : α := 41.39119773534
  let a3 : α := -25.44106049637
  let b0 : α := -8.47351093090
  let b1 : α := 23.08336743743
  let b2 : α := -21.06224101826
  let b3 : α := 3.13082909833
  let c0 : α := 0.3374754822726147
  let c1 : α := 0.9761690190917186
  let c2 : α := 0.1607979714918209
  let c3 : α := 0.0276438810333863
  let c4 : α := 0.0038405729373609
  let c5 : α := 0.0003951896511919
  let c6 : α := 0.0000321767881768
  let c7 : α := 0.0000002888167364
  let c8 : α := 0.0000003960315187
  let x : α := up - 0.5
  if |x| < 0.42 then
    let r : α := x * x
    let r : α := x * (((a3 * r + a2) * r + a1) * r + a0)
      / ((((b3 * r + b2) * r + b1) * r + b0) * r + 1.0)
    if sup then -r else r
  else
    let r : α := up
    let r : α := log (-log r)
    let r : α := c0 + r * (c1 + r * (c2 + r * (c3 + r * (c4 + r * (c5 + r * (c6
      + r * (c7 + r * c8)))))))
    if sup then r else -r

/-- The numerator polynomial of the central regime of `invNormalCdf` (line 78) as a function of
`r = x * x`.  A quantity of the proofs. -/
def invNormalCdfNum (r : α) : α :=
  ((-25.44106049637 * r + 41.39119773534) * r + -18.61500062529) * r + 2.50662823884

/-- The denominator polynomial of the central regime of `invNormalCdf` (line 78) as a function
of `r = x * x`.  A quantity of the proofs. -/
def invNormalCdfDen (r : α) : α :=
  (((3.13082909833 * r + -21.06224101826) * r + 23.08336743743) * r + -8.47351093090) * r + 1

/-- The polynomial of the tail regime of `invNormalCdf` (line 84) as a function of
`r = log (-log up)`.  A quantity of the proofs. -/
def invNormalCdfTailPol (r : α) : α :=
  0.3374754822726147 + r * (0.9761690190917186 + r * (0.1607979714918209
    + r * (0.0276438810333863 + r * (0.0038405729373609 + r * (0.0003951896511919
    + r * (0.0000321767881768 + r * (0.0000002888167364 + r * 0.0000003960315187)))))))

end Gaussians

/-! ## Rounded arithmetic

The definitions above read every `double` operation as exact.  The definitions of this section
read the same source with every operation rounded: they take the rounding function `rnd` as a
parameter and apply it to the result of each addition, subtraction, multiplication and division
of `double` values and to each decimal literal that is not a binary fraction (`0.5`, `1.0`, `2`
and `10.0` are left as they are; a literal written with a minus sign is the negation of the
rounded literal).  Comparisons, unary minus, `fabs` and `max` are exact.  With `rnd = id` they
are the definitions above; with `rnd = roundDouble` they are the program in IEEE 754 binary64
arithmetic, rounding to nearest, ties to even.  The exponent range of `roundDouble` is
unbounded: overflow to infinity, subnormal numbers and NaN are not modelled. -/

section Rounded

/-- Rounding of a rational number to the nearest integer, ties to the even one. -/
def roundHalfEven (m : ℚ) : ℤ :=
  if m - ⌊m⌋ < 1 / 2 then ⌊m⌋
  else if 1 / 2 < m - ⌊m⌋ then ⌊m⌋ + 1
  else if ⌊m⌋ % 2 = 0 then ⌊m⌋ else ⌊m⌋ + 1

/-- Rounding to the nearest binary64 number (53-bit significand, round to nearest, ties to
even, unbounded exponent): for `2 ^ e ≤ |q| < 2 ^ (e + 1)` the result is the multiple of
`2 ^ (e - 52)` nearest to `q`.  This is what each arithmetic operation of the C++ type `double`
returns for the exact result `q`, within the normal range. -/
def roundDouble (q : ℚ) : ℚ :=
  if q = 0 then 0
  else if 0 < q then roundHalfEven (q / 2 ^ (Int.log 2 q - 52)) * 2 ^ (Int.log 2 q - 52)
  else -(roundHalfEven (-q / 2 ^ (Int.log 2 (-q) - 52)) * 2 ^ (Int.log 2 (-q) - 52))

variable {α : Type} [LinearOrderedField α]

/-- The `while` loop of the constructor (`mcPrd.h`, lines 47-51) in rounded arithmetic: the
difference `myMaturity - t`, the literal `ONE_HOUR` and the sum of `t += monitorFreq` are
rounded.  Fuel and `none` as in `UOC.whileLoop`. -/
def UOC.whileLoopR (rnd : α → α) (myMaturity monitorFreq : α) :
    Nat → α → List α → Option (List α)
  | 0, t, tl => if rnd (myMaturity - t) > rnd ONE_HOUR then none else some tl
  | fuel + 1, t, tl =>
    if rnd (myMaturity - t) > rnd ONE_HOUR then
      UOC.whileLoopR rnd myMaturity monitorFreq fuel (rnd (t + monitorFreq)) (tl ++ [t])
    else some tl

/-- The constructor `UOC::UOC` (`mcPrd.h`, lines 36-55) in rounded arithmetic: the sum
`systemTime + monitorFreq` is rounded and the loop is `UOC.whileLoopR`. -/
def UOC.ctorR (rnd : α → α) (systemTime : α) (fuel : Nat)
    (strike barrier maturity monitorFreq : α) : Option (UOC α) :=
  match UOC.whileLoopR rnd maturity monitorFreq fuel (rnd (systemTime + monitorFreq))
      [systemTime] with
  | none => none
  | some tl =>
    match tl.getLast? with
    | none => some ⟨strike, barrier, maturity, tl⟩
    | some back =>
      if back < maturity then some ⟨strike, barrier, maturity, tl ++ [maturity]⟩
      else some ⟨strike, barrier, maturity, tl⟩

/-- The values taken by the variable `t` of the constructor in rounded arithmetic:
`t_0 = systemTime` and `t_(k+1) = rnd (t_k + monitorFreq)`.  A quantity of the proofs. -/
def UOC.dateR (rnd : α → α) (systemTime monitorFreq : α) : Nat → α
  | 0 => systemTime
  | k + 1 => rnd (UOC.dateR rnd systemTime monitorFreq k + monitorFreq)

/-- A lower bound for the amount by which one rounded addition `t += monitorFreq` advances `t`
while `t` lies between the reference time and maturity, for a rounding of relative error at
most `ε`: `monitorFreq - ε * (max |systemTime| |maturity| + monitorFreq)`.  In exact arithmetic
(`ε = 0`) it is `monitorFreq`.  A quantity of the proofs. -/
def UOC.advance (ε systemTime maturity monitorFreq : α) : α :=
  monitorFreq - ε * (max |systemTime| |maturity| + monitorFreq)

/-- The function `normalDens` (`gaussians.h`, lines 13-16) in rounded arithmetic: the result of
every `double` operation and every decimal literal that is not a binary fraction is passed
through `rnd`; `-0.5 * x * x` is `((-0.5) * x) * x`.  The value returned by the library
function `exp` is taken as it is. -/
def normalDensR (rnd : α → α) (exp : α → α) (x : α) : α :=
  if x < -10.0 ∨ 10.0 < x then 0.0
  else rnd (exp (rnd (rnd (-0.5 * x) * x)) / rnd 2.506628274631)

/-- The function `normalCdf` (`gaussians.h`, lines 21-41) in rounded arithmetic, in the same
way. -/
def normalCdfR (rnd : α → α) (exp : α → α) (x : α) : α :=
  if x < -10.0 then 0.0
  else if x > 10.0 then 1.0
  else if h : x < 0.0 then rnd (1.0 - normalCdfR rnd exp (-x))
  else
    let p : α := rnd 0.2316419
    let b1 : α := rnd 0.319381530
    let b2 : α := -rnd 0.356563782
    let b3 : α := rnd 1.781477937
    let b4 : α := -rnd 1.821255978
    let b5 : α := rnd 1.330274429
    let t := rnd (1.0 / rnd (1.0 + rnd (p * x)))
    let pol := rnd (t * rnd (b1 + rnd (t * rnd (b2 + rnd (t * rnd (b3 + rnd (t * rnd (b4
      + rnd (t * b5)))))))))
    let pdf := normalDensR rnd exp x
    rnd (1.0 - rnd (pdf * pol))
termination_by (if x < 0.0 then 1 else 0 : Nat)
decreasing_by
  have h2 : ¬ (-x < 0.0) := by
    norm_num at h ⊢
    exact h.le
  simp [h, h2]

/-- The function `invNormalCdf` (`gaussians.h`, lines 47-87) in rounded arithmetic, in the same
way; `x * P / Q` is `(x * P) / Q`.  The values returned by the library function `log` are taken
as they are. -/
def invNormalCdfR (rnd : α → α) (log : α → α) (p : α) : α :=
  let sup : Bool := decide (p > 0.5)
  let up : α := if sup then rnd (1.0 - p) else p
  let a0 : α := rnd 2.50662823884
  let a1 : α := -rnd 18.61500062529
  let a2 : α := rnd 41.39119773534
  let a3 : α := -rnd 25.44106049637
  let b0 : α := -rnd 8.47351093090
  let b1 : α := rnd 23.08336743743
  let b2 : α := -rnd 21.06224101826
  let b3 : α := rnd 3.13082909833
  let c0 : α := rnd 0.3374754822726147
  let c1 : α := rnd 0.9761690190917186
  let c2 : α := rnd 0.1607979714918209
  let c3 : α := rnd 0.0276438810333863
  let c4 : α := rnd 0.0038405729373609
  let c5 : α := rnd 0.0003951896511919
  let c6 : α := rnd 0.0000321767881768
  let c7 : α := rnd 0.0000002888167364
  let c8 : α := rnd 0.0000003960315187
  let x : α := rnd (up - 0.5)
  if |x| < rnd 0.42 then
    let r : α := rnd (x * x)
    let r : α := rnd (rnd (x * rnd (rnd (rnd (rnd (rnd (rnd (a3 * r) + a2) * r) + a1) * r) + a0))
      / rnd (rnd (rnd (rnd (rnd (rnd (rnd (rnd (b3 * r) + b2) * r) + b1) * r) + b0) * r) + 1.0))
    if sup then -r else r
  else
    let r : α := up
    let r : α := log (-log r)
    let r : α := rnd (c0 + rnd (r * rnd (c1 + rnd (r * rnd (c2 + rnd (r * rnd (c3 + rnd (r
      * rnd (c4 + rnd (r * rnd (c5 + rnd (r * rnd (c6 + rnd (r * rnd (c7 + rnd (r * c8))))))))))))))))
    if sup then r else -r

/-- The body of `invNormalCdfR` after `sup` and `up` are set (lines 50-86), as a function of
these two.  A quantity of the proofs. -/
def invNormalCdfBodyR (rnd : α → α) (log : α → α) (sup : Bool) (up : α) : α :=
  let x : α := rnd (up - 0.5)
  if |x| < rnd 0.42 then
    let r : α := rnd (x * x)
    let r : α := rnd (rnd (x * rnd (rnd (rnd (rnd (rnd (rnd (-rnd 25.44106049637 * r)
        + rnd 41.39119773534) * r) + -rnd 18.61500062529) * r) + rnd 2.50662823884))
      / rnd (rnd (rnd (rnd (rnd (rnd (rnd (rnd (rnd 3.13082909833 * r) + -rnd 21.06224101826) * r)
        + rnd 23.08336743743) * r) + -rnd 8.47351093090) * r) + 1.0))
    if sup then -r else r
  else
    let r : α := log (-log up)
    let r : α := rnd (rnd 0.3374754822726147 + rnd (r * rnd (rnd 0.9761690190917186
      + rnd (r * rnd (rnd 0.1607979714918209 + rnd (r * rnd (rnd 0.0276438810333863 + rnd (r
      * rnd (rnd 0.0038405729373609 + rnd (r * rnd (rnd 0.0003951896511919 + rnd (r
      * rnd (rnd 0.0000321767881768 + rnd (r * rnd (rnd 0.0000002888167364
      + rnd (r * rnd 0.0000003960315187))))))))))))))))
    if sup then r else -r

/-- The polynomial `pol` of `normalCdfR` (`gaussians.h`, lines 27-36) as a function of `x`.  A
quantity of the proofs. -/
def normalCdfPolR (rnd : α → α) (x : α) : α :=
  let p : α := rnd 0.2316419
  let b1 : α := rnd 0.319381530
  let b2 : α := -rnd 0.356563782
  let b3 : α := rnd 1.781477937
  let b4 : α := -rnd 1.821255978
  let b5 : α := rnd 1.330274429
  let t := rnd (1.0 / rnd (1.0 + rnd (p * x)))
  rnd (t * rnd (b1 + rnd (t * rnd (b2 + rnd (t * rnd (b3 + rnd (t * rnd (b4
    + rnd (t * b5)))))))))

end Rounded

/-! ## The payoff of the up-and-out call -/

section PayoffLemmas

variable {α : Type} [LinearOrderedField α]

theorem UOC.forLoop_cons (B h : α) (x : scenario α) (xs : List (scenario α)) (a : α) :
    UOC.forLoop B h (x :: xs) a =
      if x.spot > B + h then none
      else if x.spot > B - h then UOC.forLoop B h xs (a * ((B + h - x.spot) / (2 * h)))
      else UOC.forLoop B h xs a := by
  rw [UOC.forLoop]

/-- An observation above `B + h` anywhere in the list makes the loop return early. -/
theorem UOC.forLoop_breach (B h : α) (l : List (scenario α)) (a : α)
    (hb : ∃ s ∈ l, s.spot > B + h) : UOC.forLoop B h l a = none := by
  induction l generalizing a with
  | nil => simp at hb
  | cons x xs ih =>
    rw [UOC.forLoop_cons]
    by_cases hx : x.spot > B + h
    · simp [hx]
    · have hxs : ∃ s ∈ xs, s.spot > B + h := by
        obtain ⟨s, hs, hgt⟩ := hb
        rcases List.mem_cons.mp hs with rfl | hs
        · exact absurd hgt hx
        · exact ⟨s, hs, hgt⟩
      simp only [hx, if_false]
      split_ifs
      · exact ih _ hxs
      · exact ih _ hxs

/-- With a positive half-width, observations below `B - h` leave `alive` untouched. -/
theorem UOC.forLoop_below (B h : α) (hh : 0 < h) (l : List (scenario α)) (a : α)
    (hb : ∀ s ∈ l, s.spot < B - h) : UOC.forLoop B h l a = some a := by
  induction l generalizing a with
  | nil => rfl
  | cons x xs ih =>
    have hx := hb x (List.mem_cons_self x xs)
    have h1 : ¬ x.spot > B + h := not_lt.mpr (by linarith)
    have h2 : ¬ x.spot > B - h := not_lt.mpr hx.le
    rw [UOC.forLoop_cons]
    simp only [h1, h2, if_false]
    exact ih a (fun s hs => hb s (List.mem_cons_of_mem x hs))

/-- The loop over `l ++ [x]` is the loop over `l` followed by the step on `x`. -/
theorem UOC.forLoop_append (B h : α) (l : List (scenario α)) (x : scenario α) (a : α) :
    UOC.forLoop B h (l ++ [x]) a =
      (UOC.forLoop B h l a).bind (fun a1 => UOC.forLoop B h [x] a1) := by
  induction l generalizing a with
  | nil => rfl
  | cons y ys ih =>
    rw [List.cons_append, UOC.forLoop_cons, UOC.forLoop_cons B h y ys]
    split_ifs
    · rfl
    · exact ih _
    · exact ih _

theorem UOC.payoff_of_forLoop_none (u : UOC α) (s0 : scenario α) (rest : List (scenario α))
    (h : UOC.forLoop u.myBarrier (s0.spot * 0.01) (s0 :: rest) 1 = none) :
    u.payoff (s0 :: rest) = some 0 := by
  simp only [UOC.payoff, h]

theorem UOC.payoff_of_forLoop_some (u : UOC α) (s0 : scenario α) (rest : List (scenario α))
    (a : α) (h : UOC.forLoop u.myBarrier (s0.spot * 0.01) (s0 :: rest) 1 = some a) :
    u.payoff (s0 :: rest) =
      some (a * max (((s0 :: rest).getLast (List.cons_ne_nil s0 rest)).spot - u.myStrike) 0) := by
  simp only [UOC.payoff, h]

theorem UOC.payoff_breach (u : UOC α) (path : List (scenario α)) (hne : path ≠ [])
    (hb : ∃ s ∈ path, s.spot > u.myBarrier + (path.head hne).spot * 0.01) :
    u.payoff path = some 0 := by
  match path, hne, hb with
  | s0 :: rest, _, hb =>
    exact UOC.payoff_of_forLoop_none u s0 rest
      (UOC.forLoop_breach u.myBarrier (s0.spot * 0.01) (s0 :: rest) 1 hb)

theorem UOC.payoff_below (u : UOC α) (path : List (scenario α)) (hne : path ≠ [])
    (hpos : 0 < (path.head hne).spot)
    (hb : ∀ s ∈ path, s.spot < u.myBarrier - (path.head hne).spot * 0.01) :
    u.payoff path = some (max ((path.getLast hne).spot - u.myStrike) 0) := by
  match path, hne, hpos, hb with
  | s0 :: rest, _, hpos, hb =>
    have hh : (0 : α) < s0.spot * 0.01 := by
      have : (0 : α) < s0.spot := hpos
      norm_num; linarith
    have := UOC.forLoop_below u.myBarrier (s0.spot * 0.01) hh (s0 :: rest) 1 hb
    rw [UOC.payoff_of_forLoop_some u s0 rest 1 this, one_mul]

/-- The payoff of a path `s0 :: rest` extended by a final observation `s`. -/
theorem UOC.payoff_snoc (u : UOC α) (s0 : scenario α) (rest : List (scenario α)) (s : α) :
    u.payoff (s0 :: rest ++ [⟨s⟩]) =
      Option.elim ((UOC.forLoop u.myBarrier (s0.spot * 0.01) (s0 :: rest) 1).bind
          (fun a1 => UOC.forLoop u.myBarrier (s0.spot * 0.01) [⟨s⟩] a1))
        (some 0) (fun a => some (a * max (s - u.myStrike) 0)) := by
  rw [← UOC.forLoop_append]
  cases hl : UOC.forLoop u.myBarrier (s0.spot * 0.01) (s0 :: rest ++ [⟨s⟩]) 1 with
  | none => exact UOC.payoff_of_forLoop_none u s0 (rest ++ [scenario.mk s]) hl
  | some a =>
    have := UOC.payoff_of_forLoop_some u s0 (rest ++ [scenario.mk s]) a hl
    simpa using this

end PayoffLemmas

section PayoffClaims

variable {α : Type} [LinearOrderedField α]

/-- Claim C1 (hard breach).  For every strike and barrier (every `u`) and every non-empty path:
if some observation `path[i].spot` is strictly greater than `barrier + half`, where
`half = 0.01 * path[0].spot`, then `payoff path` is exactly `0`, whatever the terminal spot and
the other observations are. -/
theorem UOC_payoff_hard_breach (u : UOC α) (path : List (scenario α)) (hne : path ≠ [])
    (i : Nat) (hi : i < path.length)
    (hb : path[i].spot > u.myBarrier + 0.01 * (path.head hne).spot) :
    u.payoff path = some 0 := by
  apply UOC.payoff_breach u path hne
  refine ⟨path[i], List.getElem_mem hi, ?_⟩
  rw [mul_comm]
  exact hb

/-- Witness of C1: strike 100, barrier 120, path 100, 125, 90; the second observation is above
`120 + 1`. -/
theorem UOC_payoff_hard_breach_witness :
    (UOC.mk (100 : ℚ) 120 1 [0, 1 / 2, 1]).payoff [⟨100⟩, ⟨125⟩, ⟨90⟩] = some 0 :=
  UOC_payoff_hard_breach (UOC.mk (100 : ℚ) 120 1 [0, 1 / 2, 1]) [⟨100⟩, ⟨125⟩, ⟨90⟩]
    (by simp) 1 (by simp) (by norm_num)

/-- Claim C2 (no interaction with the band).  For every non-empty path with positive initial
spot in which every observation is strictly below `barrier - half`
(`half = 0.01 * path[0].spot`), `payoff path` is the vanilla call payoff
`max (path.back().spot - strike) 0`. -/
theorem UOC_payoff_below_band (u : UOC α) (path : List (scenario α)) (hne : path ≠ [])
    (hpos : 0 < (path.head hne).spot)
    (hbelow : ∀ s ∈ path, s.spot < u.myBarrier - 0.01 * (path.head hne).spot) :
    u.payoff path = some (max ((path.getLast hne).spot - u.myStrike) 0) := by
  apply UOC.payoff_below u path hne hpos
  intro s hs
  rw [mul_comm]
  exact hbelow s hs

/-- Witness of C2, the example of the spec: strike 100, barrier 120, observations 100, 110 and
the terminal spot 115 give the payoff 15. -/
theorem UOC_payoff_below_band_witness :
    (UOC.mk (100 : ℚ) 120 1 [0, 1 / 2, 1]).payoff [⟨100⟩, ⟨110⟩, ⟨115⟩] = some 15 := by
  have h := UOC_payoff_below_band (UOC.mk (100 : ℚ) 120 1 [0, 1 / 2, 1])
    [⟨100⟩, ⟨110⟩, ⟨115⟩] (by simp) (by norm_num) (by norm_num)
  rw [h]
  norm_num

/-- Claim C8 (example of the spec).  With barrier 120 (and any strike, 100 included), every
non-empty path that has an observation with spot equal to 125 has payoff exactly `0`, whatever
the other observations and the initial spot are: either the initial spot is itself above
`120 + 0.01 * path[0].spot`, or `120 + 0.01 * path[0].spot < 125`. -/
theorem UOC_payoff_example_125 (u : UOC α) (hB : u.myBarrier = 120)
    (path : List (scenario α)) (hne : path ≠ []) (h125 : ∃ s ∈ path, s.spot = 125) :
    u.payoff path = some 0 := by
  apply UOC.payoff_breach u path hne
  by_cases h0 : (path.head hne).spot > u.myBarrier + (path.head hne).spot * 0.01
  · exact ⟨path.head hne, List.head_mem hne, h0⟩
  · obtain ⟨s, hs, hs125⟩ := h125
    refine ⟨s, hs, ?_⟩
    rw [hB] at h0 ⊢
    rw [hs125]
    norm_num at h0 ⊢
    linarith

/-- Witness of C8: strike 100, barrier 120 and the path 500, 125, 90, whose half-width 5 puts
the observation 125 exactly on `barrier + half`; the payoff is `0` all the same. -/
theorem UOC_payoff_example_125_witness :
    (UOC.mk (100 : ℚ) 120 1 [0, 1 / 2, 1]).payoff [⟨500⟩, ⟨125⟩, ⟨90⟩] = some 0 :=
  UOC_payoff_example_125 (UOC.mk (100 : ℚ) 120 1 [0, 1 / 2, 1]) rfl [⟨500⟩, ⟨125⟩, ⟨90⟩]
    (by simp) ⟨⟨125⟩, by simp, rfl⟩

end PayoffClaims

/-- Claim C3 (continuity in the final observation).  For every strike and barrier and every
path of length at least 2 (`pre ++ [s]` with `pre` non-empty) with positive initial spot, all
observations but the last held fixed, the payoff as a function of the real last spot `s` is a
continuous function `g`; in particular it has no jump at `barrier - half` nor at
`barrier + half`. -/
theorem UOC_payoff_continuous_final (u : UOC ℝ) (pre : List (scenario ℝ)) (hne : pre ≠ [])
    (hpos : 0 < (pre.head hne).spot) :
    ∃ g : ℝ → ℝ, Continuous g ∧ ∀ s : ℝ, u.payoff (pre ++ [⟨s⟩]) = some (g s) := by
  match pre, hne, hpos with
  | s0 :: rest, _, hpos =>
    have hh : (0 : ℝ) < s0.spot * 0.01 := by
      have : (0 : ℝ) < s0.spot := hpos
      norm_num; linarith
    have key := UOC.payoff_snoc u s0 rest
    cases hpre : UOC.forLoop u.myBarrier (s0.spot * 0.01) (s0 :: rest) 1 with
    | none =>
      refine ⟨fun _ => 0, continuous_const, fun s => ?_⟩
      rw [key, hpre]; rfl
    | some A =>
      refine ⟨fun s => A * max 0 (min 1 ((u.myBarrier + s0.spot * 0.01 - s) / (2 * (s0.spot * 0.01))))
        * max (s - u.myStrike) 0, by fun_prop, fun s => ?_⟩
      rw [key, hpre]
      simp only [Option.some_bind, UOC.forLoop_cons, UOC.forLoop]
      have h2 : (0 : ℝ) < 2 * (s0.spot * 0.01) := by linarith
      split_ifs with h1 h3
      · have hr : (u.myBarrier + s0.spot * 0.01 - s) / (2 * (s0.spot * 0.01)) ≤ 0 :=
          div_nonpos_of_nonpos_of_nonneg (by linarith) h2.le
        have hm : min 1 ((u.myBarrier + s0.spot * 0.01 - s) / (2 * (s0.spot * 0.01)))
            = (u.myBarrier + s0.spot * 0.01 - s) / (2 * (s0.spot * 0.01)) :=
          min_eq_right (by linarith)
        simp only [hm, max_eq_left hr, mul_zero, zero_mul, Option.elim]
      · have hr0 : 0 ≤ (u.myBarrier + s0.spot * 0.01 - s) / (2 * (s0.spot * 0.01)) :=
          div_nonneg (by linarith) h2.le
        have hr1 : (u.myBarrier + s0.spot * 0.01 - s) / (2 * (s0.spot * 0.01)) ≤ 1 := by
          rw [div_le_one h2]; linarith
        simp only [min_eq_right hr1, max_eq_right hr0, Option.elim]
      · have hr1 : 1 ≤ (u.myBarrier + s0.spot * 0.01 - s) / (2 * (s0.spot * 0.01)) := by
          rw [one_le_div h2]; linarith
        simp only [min_eq_left hr1, max_eq_right zero_le_one, mul_one, Option.elim]

/-- Witness of C3: strike 100, barrier 120, the fixed observations 100 and 110 followed by a
free last spot. -/
theorem UOC_payoff_continuous_final_witness :
    ∃ g : ℝ → ℝ, Continuous g ∧
      ∀ s : ℝ, (UOC.mk (100 : ℝ) 120 1 [0, 1 / 2, 1]).payoff ([⟨100⟩, ⟨110⟩] ++ [⟨s⟩]) = some (g s) :=
  UOC_payoff_continuous_final (UOC.mk (100 : ℝ) 120 1 [0, 1 / 2, 1]) [⟨100⟩, ⟨110⟩]
    (by simp) (by norm_num)

/-! ## The timeline built by the constructor -/

section TimelineLemmas

variable {α : Type} [LinearOrderedField α]

theorem ONE_HOUR_pos : (0 : α) < ONE_HOUR := by
  unfold ONE_HOUR
  norm_num

variable [FloorRing α]

end TimelineLemmas

section TimelineClaims

variable {α : Type} [LinearOrderedField α] [FloorRing α]

/-- Counterexample to C6 as stated.  Reference time 0, maturity 1/5000 (later than 0) and
`monitorFreq = 1/25000 > 0`: the timeline is 0, 1/25000, 1/12500, 1/5000, and its first two
elements, which are not the final pair, are `0.00004 < ONE_HOUR` apart. -/
theorem UOC_timeline_min_spacing_counterexample :
    (0 : ℚ) < 1 / 25000 ∧ (0 : ℚ) < 1 / 5000 ∧
    ∃ u : UOC ℚ, UOC.ctor 0 2 100 120 (1 / 5000) (1 / 25000) = some u ∧
      u.timeline = [0, 1 / 25000, 1 / 12500, 1 / 5000] ∧
      ∃ (i : Nat) (h : i + 2 < u.timeline.length),
        u.timeline[i + 1] - u.timeline[i] < ONE_HOUR := by
  refine ⟨by norm_num, by norm_num, ⟨100, 120, 1 / 5000, [0, 1 / 25000, 1 / 12500, 1 / 5000]⟩,
    ?_, rfl, 0, by simp [UOC.timeline], ?_⟩
  · norm_num [UOC.ctor, UOC.whileLoop, ONE_HOUR]
  · norm_num [UOC.timeline, ONE_HOUR]

end TimelineClaims

/-! ## The Gaussian functions -/

section GaussianLemmas

variable {α : Type} [LinearOrderedField α]

theorem normalCdf_of_lt (exp : α → α) (x : α) (h : x < -10) : normalCdf exp x = 0 := by
  rw [normalCdf]
  norm_num [h]

theorem normalCdf_of_gt (exp : α → α) (x : α) (h : 10 < x) : normalCdf exp x = 1 := by
  have h1 : ¬ x < -10 := not_lt.mpr (by linarith)
  rw [normalCdf]
  norm_num [h, h1]

theorem normalCdf_of_neg (exp : α → α) (x : α) (h1 : -10 ≤ x) (h2 : x < 0) :
    normalCdf exp x = 1 - normalCdf exp (-x) := by
  have h3 : ¬ x < -10 := not_lt.mpr h1
  have h4 : ¬ 10 < x := not_lt.mpr (by linarith)
  rw [normalCdf]
  norm_num [h2, h3, h4]

theorem normalCdf_of_nonneg (exp : α → α) (x : α) (h1 : 0 ≤ x) (h2 : x ≤ 10) :
    normalCdf exp x
      = 1 - exp (-0.5 * x * x) / 2.506628274631 * normalCdfPol (1 / (1 + 0.2316419 * x)) := by
  have h3 : ¬ x < -10 := not_lt.mpr (by linarith)
  have h4 : ¬ 10 < x := not_lt.mpr h2
  have h5 : ¬ x < 0 := not_lt.mpr h1
  rw [normalCdf]
  norm_num [h3, h4, h5, normalDens, normalCdfPol]

end GaussianLemmas

section GaussianClaims

variable {α : Type} [LinearOrderedField α]

/-- Counterexample to C9 as stated, at `x = 0` (where `exp 0 = 1`):
`normalCdf 0 = 1 - 1.253314136 / 2.506628274631`, which is not `1 / 2`, so
`normalCdf (-0) = normalCdf 0` differs from `1 - normalCdf 0`. -/
theorem normalCdf_symmetry_counterexample :
    normalCdf Real.exp (-0) ≠ 1 - normalCdf Real.exp 0 := by
  rw [neg_zero, normalCdf_of_nonneg Real.exp 0 le_rfl (by norm_num)]
  norm_num [normalCdfPol]

/-- Claim C9, amended.  For every `x ≠ 0` (`|x| = 10` and `|x| > 10` included),
`normalCdf (-x) = 1 - normalCdf x`.  This holds in every linearly ordered field and for every
function `exp`, in particular over the reals with `Real.exp`. -/
theorem normalCdf_symmetry (exp : α → α) (x : α) (hx : x ≠ 0) :
    normalCdf exp (-x) = 1 - normalCdf exp x := by
  rcases lt_trichotomy x 0 with hneg | h0 | hpos
  · rcases lt_or_le x (-10) with hlt | hge
    · rw [normalCdf_of_lt exp x hlt, normalCdf_of_gt exp (-x) (by linarith)]
      norm_num
    · rw [normalCdf_of_neg exp x hge hneg]
      ring
  · exact absurd h0 hx
  · rcases lt_or_le 10 x with hgt | hle
    · rw [normalCdf_of_gt exp x hgt, normalCdf_of_lt exp (-x) (by linarith)]
      norm_num
    · rw [normalCdf_of_neg exp (-x) (by linarith) (by linarith), neg_neg]

/-- Witness of the amended C9 at the regime boundary `x = 10`, over the reals. -/
theorem normalCdf_symmetry_witness :
    normalCdf Real.exp (-10) = 1 - normalCdf Real.exp 10 :=
  normalCdf_symmetry Real.exp 10 (by norm_num)

end GaussianClaims

/-! ### Monotonicity of `normalCdf` in exact real arithmetic -/

/-- The derivative of `normalCdfPol` is a quartic without real roots: it is
`6.65... * t^2 * (t - c)^2` plus a positive definite quadratic. -/
theorem normalCdfPol_deriv_nonneg (t : ℝ) :
    0 ≤ 0.319381530 + 2 * (-0.356563782) * t + 3 * 1.781477937 * t ^ 2
      + 4 * (-1.821255978) * t ^ 3 + 5 * 1.330274429 * t ^ 4 := by
  nlinarith [sq_nonneg (t * (t - 0.5476)), sq_nonneg (t - 0.1065), sq_nonneg t]

theorem normalCdfPol_hasDerivAt (t : ℝ) :
    HasDerivAt (normalCdfPol : ℝ → ℝ) (0.319381530 + 2 * (-0.356563782) * t
      + 3 * 1.781477937 * t ^ 2 + 4 * (-1.821255978) * t ^ 3 + 5 * 1.330274429 * t ^ 4) t := by
  have h1 : HasDerivAt (fun t : ℝ => t) 1 t := hasDerivAt_id t
  have h5 := (h1.mul_const (1.330274429 : ℝ)).const_add (-1.821255978 : ℝ)
  have h4 := (h1.mul h5).const_add (1.781477937 : ℝ)
  have h3 := (h1.mul h4).const_add (-0.356563782 : ℝ)
  have h2 := (h1.mul h3).const_add (0.319381530 : ℝ)
  have h0 := h1.mul h2
  refine HasDerivAt.congr_deriv h0 ?_
  ring

theorem normalCdfPol_monotone : Monotone (normalCdfPol : ℝ → ℝ) := by
  apply monotone_of_deriv_nonneg
  · intro t
    exact (normalCdfPol_hasDerivAt t).differentiableAt
  · intro t
    rw [(normalCdfPol_hasDerivAt t).deriv]
    exact normalCdfPol_deriv_nonneg t

theorem normalCdfPol_nonneg (t : ℝ) (ht : 0 ≤ t) : 0 ≤ normalCdfPol t := by
  have h := normalCdfPol_monotone ht
  have h0 : normalCdfPol (0 : ℝ) = 0 := by simp [normalCdfPol]
  rw [h0] at h
  exact h

theorem normalCdfTail_nonneg (x : ℝ) (hx : 0 ≤ x) : 0 ≤ normalCdfTail Real.exp x := by
  unfold normalCdfTail
  have h1 : (0 : ℝ) < 1 + 0.2316419 * x := by positivity
  have h2 : 0 ≤ normalCdfPol (1 / (1 + 0.2316419 * x)) :=
    normalCdfPol_nonneg _ (by positivity)
  have h3 : 0 ≤ Real.exp (-0.5 * x * x) / 2.506628274631 := by positivity
  exact mul_nonneg h3 h2

theorem normalCdfTail_antitone (x y : ℝ) (hx : 0 ≤ x) (hxy : x ≤ y) :
    normalCdfTail Real.exp y ≤ normalCdfTail Real.exp x := by
  unfold normalCdfTail
  have hy : 0 ≤ y := le_trans hx hxy
  have hpx : (0 : ℝ) < 1 + 0.2316419 * x := by positivity
  have hpy : (0 : ℝ) < 1 + 0.2316419 * y := by positivity
  have ht : 1 / (1 + 0.2316419 * y) ≤ 1 / (1 + 0.2316419 * x) :=
    one_div_le_one_div_of_le hpx (by linarith)
  have hpol := normalCdfPol_monotone ht
  have hpol0 : 0 ≤ normalCdfPol (1 / (1 + 0.2316419 * y)) :=
    normalCdfPol_nonneg _ (by positivity)
  have hexp : Real.exp (-0.5 * y * y) ≤ Real.exp (-0.5 * x * x) := by
    apply Real.exp_le_exp.mpr
    nlinarith
  have hexp2 : Real.exp (-0.5 * y * y) / 2.506628274631
      ≤ Real.exp (-0.5 * x * x) / 2.506628274631 :=
    div_le_div_of_nonneg_right hexp (by norm_num)
  have hexp0 : 0 ≤ Real.exp (-0.5 * x * x) / 2.506628274631 := by positivity
  exact mul_le_mul hexp2 hpol hpol0 hexp0

theorem normalCdfTail_le_half (x : ℝ) (hx : 0 ≤ x) : normalCdfTail Real.exp x ≤ 1 / 2 := by
  have h := normalCdfTail_antitone 0 x le_rfl hx
  have h0 : normalCdfTail Real.exp 0 ≤ 1 / 2 := by
    norm_num [normalCdfTail, normalCdfPol]
  exact le_trans h h0

theorem normalCdf_eq_of_nonneg (x : ℝ) (h1 : 0 ≤ x) (h2 : x ≤ 10) :
    normalCdf Real.exp x = 1 - normalCdfTail Real.exp x :=
  normalCdf_of_nonneg Real.exp x h1 h2

theorem normalCdf_eq_of_neg (x : ℝ) (h1 : -10 ≤ x) (h2 : x < 0) :
    normalCdf Real.exp x = normalCdfTail Real.exp (-x) := by
  rw [normalCdf_of_neg Real.exp x h1 h2,
    normalCdf_eq_of_nonneg (-x) (by linarith) (by linarith)]
  ring

theorem normalCdf_nonneg (x : ℝ) : 0 ≤ normalCdf Real.exp x := by
  rcases lt_or_le x (-10) with h1 | h1
  · rw [normalCdf_of_lt Real.exp x h1]
  rcases lt_or_le 10 x with h2 | h2
  · rw [normalCdf_of_gt Real.exp x h2]; norm_num
  rcases lt_or_le x 0 with h3 | h3
  · rw [normalCdf_eq_of_neg x h1 h3]
    exact normalCdfTail_nonneg _ (by linarith)
  · rw [normalCdf_eq_of_nonneg x h3 h2]
    have := normalCdfTail_le_half x h3
    linarith

theorem normalCdf_le_one (x : ℝ) : normalCdf Real.exp x ≤ 1 := by
  rcases lt_or_le x (-10) with h1 | h1
  · rw [normalCdf_of_lt Real.exp x h1]; norm_num
  rcases lt_or_le 10 x with h2 | h2
  · rw [normalCdf_of_gt Real.exp x h2]
  rcases lt_or_le x 0 with h3 | h3
  · rw [normalCdf_eq_of_neg x h1 h3]
    have := normalCdfTail_le_half (-x) (by linarith)
    linarith
  · rw [normalCdf_eq_of_nonneg x h3 h2]
    have := normalCdfTail_nonneg x h3
    linarith

/-- In exact real arithmetic, with the real exponential, `normalCdf` is non-decreasing: inside
the polynomial regime `[0, 10]`, inside its mirror image `[-10, 0)`, and across the regime
boundaries at `-10`, `0` and `10`.  Rounding is not covered: the differences between the values
at neighbouring arguments are below the rounding error of the `double` operations and of the
library function `exp`. -/
theorem normalCdf_monotone_exact (x y : ℝ) (hxy : x ≤ y) :
    normalCdf Real.exp x ≤ normalCdf Real.exp y := by
  rcases lt_or_le x (-10) with h1 | h1
  · rw [normalCdf_of_lt Real.exp x h1]
    exact normalCdf_nonneg y
  rcases lt_or_le 10 y with h2 | h2
  · rw [normalCdf_of_gt Real.exp y h2]
    exact normalCdf_le_one x
  have hy1 : -10 ≤ y := le_trans h1 hxy
  have hx2 : x ≤ 10 := le_trans hxy h2
  rcases lt_or_le x 0 with hx0 | hx0
  · rw [normalCdf_eq_of_neg x h1 hx0]
    rcases lt_or_le y 0 with hy0 | hy0
    · rw [normalCdf_eq_of_neg y hy1 hy0]
      exact normalCdfTail_antitone (-y) (-x) (by linarith) (by linarith)
    · rw [normalCdf_eq_of_nonneg y hy0 h2]
      have ha := normalCdfTail_le_half (-x) (by linarith)
      have hb := normalCdfTail_le_half y hy0
      linarith
  · rw [normalCdf_eq_of_nonneg x hx0 hx2, normalCdf_eq_of_nonneg y (le_trans hx0 hxy) h2]
    have := normalCdfTail_antitone x y hx0 hxy
    linarith

/-! ## The payoff: closed form and the division guard -/

section PayoffClosedForm

variable {α : Type} [LinearOrderedField α]

/-- Closed form of the loop: `none` when some observation is above `B + h`, otherwise the
starting value of `alive` times the ramp factors of the observations above `B - h`. -/
theorem UOC.forLoop_closed (B h : α) (l : List (scenario α)) (a : α) :
    UOC.forLoop B h l a =
      if ∃ s ∈ l, s.spot > B + h then none
      else some (a * ((l.filter (fun s => decide (s.spot > B - h))).map
        (fun s => (B + h - s.spot) / (2 * h))).prod) := by
  induction l generalizing a with
  | nil => simp [UOC.forLoop]
  | cons x xs ih =>
    rw [UOC.forLoop_cons]
    by_cases hx : x.spot > B + h
    · have : ∃ s ∈ x :: xs, s.spot > B + h := ⟨x, List.mem_cons_self x xs, hx⟩
      rw [if_pos hx, if_pos this]
    · rw [if_neg hx]
      have hiff : (∃ s ∈ x :: xs, s.spot > B + h) ↔ ∃ s ∈ xs, s.spot > B + h := by
        constructor
        · rintro ⟨s, hs, hgt⟩
          rcases List.mem_cons.mp hs with rfl | hs
          · exact absurd hgt hx
          · exact ⟨s, hs, hgt⟩
        · rintro ⟨s, hs, hgt⟩
          exact ⟨s, List.mem_cons_of_mem x hs, hgt⟩
      by_cases hband : x.spot > B - h
      · rw [if_pos hband, ih]
        by_cases hex : ∃ s ∈ xs, s.spot > B + h
        · rw [if_pos hex, if_pos (hiff.mpr hex)]
        · rw [if_neg hex, if_neg (fun hc => hex (hiff.mp hc))]
          rw [List.filter_cons_of_pos (by simpa using hband), List.map_cons, List.prod_cons,
            mul_assoc]
      · rw [if_neg hband, ih]
        by_cases hex : ∃ s ∈ xs, s.spot > B + h
        · rw [if_pos hex, if_pos (hiff.mpr hex)]
        · rw [if_neg hex, if_neg (fun hc => hex (hiff.mp hc))]
          rw [List.filter_cons_of_neg (by simpa using hband)]

/-- Closed form of the payoff, for every non-empty path. -/
theorem UOC.payoff_closed (u : UOC α) (path : List (scenario α)) (hne : path ≠ []) :
    u.payoff path = some
      (if ∃ s ∈ path, s.spot > u.myBarrier + (path.head hne).spot * 0.01 then 0
       else ((path.filter (fun s => decide (s.spot > u.myBarrier - (path.head hne).spot * 0.01))).map
          (fun s => (u.myBarrier + (path.head hne).spot * 0.01 - s.spot)
            / (2 * ((path.head hne).spot * 0.01)))).prod
          * max ((path.getLast hne).spot - u.myStrike) 0) := by
  match path, hne with
  | s0 :: rest, _ =>
    have hcl := UOC.forLoop_closed u.myBarrier (s0.spot * 0.01) (s0 :: rest) 1
    by_cases hex : ∃ s ∈ s0 :: rest, s.spot > u.myBarrier + s0.spot * 0.01
    · rw [if_pos hex] at hcl
      rw [UOC.payoff_of_forLoop_none u s0 rest hcl]
      simp only [List.head_cons]
      rw [if_pos hex]
    · rw [if_neg hex] at hcl
      rw [UOC.payoff_of_forLoop_some u s0 rest _ hcl]
      simp only [List.head_cons]
      rw [if_neg hex, one_mul]

/-- Claim C14 (closed form).  For every non-empty path, with `half = 0.01 * path[0].spot`
(positive initial spot or not), `payoff path` is `0` if some observation is above
`barrier + half`, and otherwise the product, over the observations with
`spot > barrier - half`, of `(barrier + half - spot) / (2 * half)`, times
`max (path.back().spot - strike) 0`. -/
theorem UOC_payoff_closed_form (u : UOC α) (path : List (scenario α)) (hne : path ≠ []) :
    u.payoff path = some
      (if ∃ s ∈ path, s.spot > u.myBarrier + 0.01 * (path.head hne).spot then 0
       else ((path.filter
            (fun s => decide (s.spot > u.myBarrier - 0.01 * (path.head hne).spot))).map
          (fun s => (u.myBarrier + 0.01 * (path.head hne).spot - s.spot)
            / (2 * (0.01 * (path.head hne).spot)))).prod
          * max ((path.getLast hne).spot - u.myStrike) 0) := by
  rw [UOC.payoff_closed u path hne, mul_comm (0.01 : α) (path.head hne).spot]

/-- Witness of C14: strike 100, barrier 120, path 100, 120, 115.  The half-width is 1, the
observation 120 lies in the band with ramp factor 1/2, and the payoff is `15 / 2`. -/
theorem UOC_payoff_closed_form_witness :
    (UOC.mk (100 : ℚ) 120 1 [0, 1 / 2, 1]).payoff [⟨100⟩, ⟨120⟩, ⟨115⟩] = some (15 / 2) := by
  have h := UOC_payoff_closed_form (UOC.mk (100 : ℚ) 120 1 [0, 1 / 2, 1])
    [⟨100⟩, ⟨120⟩, ⟨115⟩] (by simp)
  rw [h]
  norm_num [List.filter]

/-- Claim C17 (division guard).  For every non-empty path whose initial spot is `≤ 0` (so
`smooth = 0.01 * path[0].spot ≤ 0`), no observation that passes the test of line 86 satisfies
the test of line 89, so the smoothing branch with its division by `2 * smooth` is never
entered; and `payoff path` is `0` if some observation is above `barrier + smooth` and
`max (path.back().spot - strike) 0` otherwise. -/
theorem UOC_payoff_division_guard (u : UOC α) (path : List (scenario α)) (hne : path ≠ [])
    (hle : (path.head hne).spot ≤ 0) :
    (∀ s ∈ path, ¬ s.spot > u.myBarrier + 0.01 * (path.head hne).spot →
      ¬ s.spot > u.myBarrier - 0.01 * (path.head hne).spot) ∧
    u.payoff path = some
      (if ∃ s ∈ path, s.spot > u.myBarrier + 0.01 * (path.head hne).spot then 0
       else max ((path.getLast hne).spot - u.myStrike) 0) := by
  have hsm : 0.01 * (path.head hne).spot ≤ 0 :=
    mul_nonpos_of_nonneg_of_nonpos (by norm_num) hle
  have hguard : ∀ s ∈ path, ¬ s.spot > u.myBarrier + 0.01 * (path.head hne).spot →
      ¬ s.spot > u.myBarrier - 0.01 * (path.head hne).spot := by
    intro s _ h1
    have := not_lt.mp h1
    exact not_lt.mpr (by linarith)
  refine ⟨hguard, ?_⟩
  rw [UOC.payoff_closed u path hne, ← mul_comm (0.01 : α) (path.head hne).spot]
  by_cases hex : ∃ s ∈ path, s.spot > u.myBarrier + 0.01 * (path.head hne).spot
  · rw [if_pos hex, if_pos hex]
  · rw [if_neg hex, if_neg hex]
    have hnil : path.filter
        (fun s => decide (s.spot > u.myBarrier - 0.01 * (path.head hne).spot)) = [] := by
      rw [List.filter_eq_nil_iff]
      intro s hs
      have h1 : ¬ s.spot > u.myBarrier + 0.01 * (path.head hne).spot :=
        fun hc => hex ⟨s, hs, hc⟩
      simpa using hguard s hs h1
    rw [hnil, List.map_nil, List.prod_nil, one_mul]

/-- Witness of C17: initial spot 0 (so `smooth = 0`), strike 100, barrier 120, path 0, 110:
the payoff is 10. -/
theorem UOC_payoff_division_guard_witness :
    (UOC.mk (100 : ℚ) 120 1 [0, 1]).payoff [⟨0⟩, ⟨110⟩] = some 10 := by
  have h := (UOC_payoff_division_guard (UOC.mk (100 : ℚ) 120 1 [0, 1])
    [⟨0⟩, ⟨110⟩] (by simp) (by norm_num)).2
  rw [h]
  norm_num

end PayoffClosedForm

/-! ## The timeline: the expired contract -/

section TimelineExpired

variable {α : Type} [LinearOrderedField α]

/-- Claim C19 (expired contract).  For every `monitorFreq > 0` and every
`maturity ≤ systemTime`, whatever the fuel, the constructed timeline is exactly `[systemTime]`:
maturity is not appended, the length is 1 and the last element is the reference time. -/
theorem UOC_timeline_expired (systemTime strike barrier maturity monitorFreq : α)
    (hf : 0 < monitorFreq) (hM : maturity ≤ systemTime) (fuel : Nat) :
    ∃ u : UOC α, UOC.ctor systemTime fuel strike barrier maturity monitorFreq = some u ∧
      u.timeline = [systemTime] ∧ u.timeline.length = 1 ∧
      u.timeline.getLast? = some systemTime := by
  have hp : (0 : α) < ONE_HOUR := ONE_HOUR_pos
  have hstop : ¬ (maturity - (systemTime + monitorFreq) > ONE_HOUR) :=
    not_lt.mpr (by linarith)
  have hrun : UOC.whileLoop maturity monitorFreq fuel (systemTime + monitorFreq) [systemTime]
      = some [systemTime] := by
    cases fuel with
    | zero => simp [UOC.whileLoop, hstop]
    | succ m => simp [UOC.whileLoop, hstop]
  have hback : ¬ systemTime < maturity := not_lt.mpr hM
  refine ⟨⟨strike, barrier, maturity, [systemTime]⟩, ?_, rfl, rfl, rfl⟩
  simp only [UOC.ctor, hrun, List.getLast?_singleton, if_neg hback]

/-- Witness of C19: reference time 1, maturity `1/2`, monthly monitoring. -/
theorem UOC_timeline_expired_witness :
    ∃ u : UOC ℚ, UOC.ctor 1 0 100 120 (1 / 2) (1 / 12) = some u ∧
      u.timeline = [1] ∧ u.timeline.length = 1 ∧ u.timeline.getLast? = some 1 :=
  UOC_timeline_expired (1 : ℚ) 100 120 (1 / 2) (1 / 12) (by norm_num) (by norm_num) 0

end TimelineExpired

/-! ## The inverse Gaussian distribution function -/

section InverseLemmas

variable {α : Type} [LinearOrderedField α]

theorem invNormalCdf_of_le_half (log : α → α) (p : α) (hp : p ≤ 0.5) :
    invNormalCdf log p =
      if |p - 0.5| < 0.42 then
        (p - 0.5) * invNormalCdfNum ((p - 0.5) * (p - 0.5))
          / invNormalCdfDen ((p - 0.5) * (p - 0.5))
      else -invNormalCdfTailPol (log (-log p)) := by
  have h : ¬ p > 0.5 := not_lt.mpr hp
  simp only [invNormalCdf, invNormalCdfNum, invNormalCdfDen, invNormalCdfTailPol, h,
    decide_False, Bool.false_eq_true, if_false]
  norm_num

theorem invNormalCdf_of_gt_half (log : α → α) (p : α) (hp : 0.5 < p) :
    invNormalCdf log p =
      if |1 - p - 0.5| < 0.42 then
        -((1 - p - 0.5) * invNormalCdfNum ((1 - p - 0.5) * (1 - p - 0.5))
          / invNormalCdfDen ((1 - p - 0.5) * (1 - p - 0.5)))
      else invNormalCdfTailPol (log (-log (1 - p))) := by
  have h : p > 0.5 := hp
  simp only [invNormalCdf, invNormalCdfNum, invNormalCdfDen, invNormalCdfTailPol, h,
    decide_True, if_true]
  norm_num

/-- Mirror symmetry of `invNormalCdf` around `0.5`, for every `p` and every function `log`. -/
theorem invNormalCdf_one_sub (log : α → α) (p : α) :
    invNormalCdf log (1 - p) = -invNormalCdf log p := by
  rcases lt_trichotomy p 0.5 with hlt | heq | hgt
  · have h1 : (0.5 : α) < 1 - p := by norm_num at hlt ⊢; linarith
    rw [invNormalCdf_of_gt_half log (1 - p) h1, invNormalCdf_of_le_half log p hlt.le]
    have e : 1 - (1 - p) = p := by ring
    rw [e]
    split_ifs <;> simp
  · have h1 : 1 - p = p := by rw [heq]; norm_num
    rw [h1, invNormalCdf_of_le_half log p heq.le]
    have h2 : |p - 0.5| < 0.42 := by rw [heq]; norm_num
    rw [if_pos h2, heq]
    norm_num
  · have h1 : 1 - p ≤ 0.5 := by norm_num at hgt ⊢; linarith
    rw [invNormalCdf_of_le_half log (1 - p) h1, invNormalCdf_of_gt_half log p hgt]
    split_ifs <;> simp

end InverseLemmas

/-! ### The sign of `invNormalCdf` over the reals -/

theorem invNormalCdfNum_pos (q : ℝ) (h0 : 0 ≤ q) (h1 : q < 0.1764) : 0 < invNormalCdfNum q := by
  unfold invNormalCdfNum
  nlinarith [mul_nonneg h0 h0, mul_nonneg (mul_nonneg h0 h0) h0,
    mul_nonneg h0 (sub_nonneg.mpr h1.le), mul_nonneg (mul_nonneg h0 h0) (sub_nonneg.mpr h1.le),
    mul_nonneg (sub_nonneg.mpr h1.le) (sub_nonneg.mpr h1.le),
    mul_nonneg (mul_nonneg (sub_nonneg.mpr h1.le) (sub_nonneg.mpr h1.le)) h0]

theorem invNormalCdfDen_pos (q : ℝ) (h0 : 0 ≤ q) (h1 : q < 0.1764) : 0 < invNormalCdfDen q := by
  unfold invNormalCdfDen
  nlinarith [mul_nonneg h0 h0, mul_nonneg (mul_nonneg h0 h0) h0,
    mul_nonneg h0 (sub_nonneg.mpr h1.le), mul_nonneg (mul_nonneg h0 h0) (sub_nonneg.mpr h1.le),
    mul_nonneg (sub_nonneg.mpr h1.le) (sub_nonneg.mpr h1.le),
    mul_nonneg (mul_nonneg (sub_nonneg.mpr h1.le) (sub_nonneg.mpr h1.le)) h0,
    mul_nonneg (mul_nonneg (mul_nonneg h0 h0) h0) (sub_nonneg.mpr h1.le),
    mul_nonneg (mul_nonneg h0 h0) (mul_nonneg (sub_nonneg.mpr h1.le) (sub_nonneg.mpr h1.le))]

theorem invNormalCdfTailPol_pos (s : ℝ) (hs : 0 < s) : 0 < invNormalCdfTailPol s := by
  unfold invNormalCdfTailPol
  positivity

theorem invNormalCdf_central_sq (x : ℝ) (hx : |x| < 0.42) : 0 ≤ x * x ∧ x * x < 0.1764 := by
  obtain ⟨h1, h2⟩ := abs_lt.mp hx
  refine ⟨mul_self_nonneg x, ?_⟩
  nlinarith

theorem invNormalCdf_central_neg (x : ℝ) (hneg : x < 0) (hx : |x| < 0.42) :
    x * invNormalCdfNum (x * x) / invNormalCdfDen (x * x) < 0 := by
  obtain ⟨h0, h1⟩ := invNormalCdf_central_sq x hx
  have hN := invNormalCdfNum_pos (x * x) h0 h1
  have hD := invNormalCdfDen_pos (x * x) h0 h1
  exact div_neg_of_neg_of_pos (mul_neg_of_neg_of_pos hneg hN) hD

theorem invNormalCdf_tail_log (u : ℝ) (h0 : 0 < u) (h1 : u ≤ 0.08) : 1 < -Real.log u := by
  have hexp : u < Real.exp (-1) := by
    rw [Real.exp_neg]
    have h2 : Real.exp 1 < 2.7182818286 := Real.exp_one_lt_d9
    have h3 : (0 : ℝ) < Real.exp 1 := Real.exp_pos 1
    have h4 : (2.7182818286 : ℝ)⁻¹ < (Real.exp 1)⁻¹ := by
      rw [inv_lt_inv₀ (by norm_num) h3]
      exact h2
    have h5 : (0.08 : ℝ) < (2.7182818286 : ℝ)⁻¹ := by norm_num
    linarith
  have := (Real.log_lt_iff_lt_exp h0).mpr hexp
  linarith

theorem invNormalCdf_tail_pos (u : ℝ) (h0 : 0 < u) (h1 : u ≤ 0.08) :
    0 < invNormalCdfTailPol (Real.log (-Real.log u)) :=
  invNormalCdfTailPol_pos _ (Real.log_pos (invNormalCdf_tail_log u h0 h1))

theorem invNormalCdf_neg_of_lt_half (p : ℝ) (h0 : 0 < p) (hp : p < 0.5) :
    invNormalCdf Real.log p < 0 := by
  rw [invNormalCdf_of_le_half Real.log p hp.le]
  split_ifs with hc
  · exact invNormalCdf_central_neg (p - 0.5) (by linarith) hc
  · have hu : p ≤ 0.08 := by
      by_contra hcon
      apply hc
      rw [abs_lt]
      constructor <;> norm_num at hcon hp ⊢ <;> linarith
    have := invNormalCdf_tail_pos p h0 hu
    linarith

/-- Claim C20 (sign of `invNormalCdf`).  For every real `p` in `(0, 1)`: `invNormalCdf p < 0`
when `p < 0.5`, `invNormalCdf 0.5 = 0`, and `invNormalCdf p > 0` when `p > 0.5`.  With
`up = min p (1 - p)`: in the central regime `|up - 0.5| < 0.42` the denominator of the rational
approximation is strictly positive, and in the tail regime both logarithms take positive
arguments (`up > 0` and `-log up > 0`). -/
theorem invNormalCdf_sign (p : ℝ) (h0 : 0 < p) (h1 : p < 1) :
    (p < 0.5 → invNormalCdf Real.log p < 0) ∧
    (p = 0.5 → invNormalCdf Real.log p = 0) ∧
    (0.5 < p → 0 < invNormalCdf Real.log p) ∧
    (|min p (1 - p) - 0.5| < 0.42 →
      0 < invNormalCdfDen ((min p (1 - p) - 0.5) * (min p (1 - p) - 0.5))) ∧
    (¬ |min p (1 - p) - 0.5| < 0.42 →
      0 < min p (1 - p) ∧ 0 < -Real.log (min p (1 - p))) := by
  refine ⟨fun hp => invNormalCdf_neg_of_lt_half p h0 hp, ?_, ?_, ?_, ?_⟩
  · intro hp
    rw [invNormalCdf_of_le_half Real.log p hp.le, hp]
    norm_num
  · intro hp
    have hq : 1 - p < 0.5 := by norm_num at hp ⊢; linarith
    have hneg := invNormalCdf_neg_of_lt_half (1 - p) (by linarith) hq
    have hsym := invNormalCdf_one_sub Real.log (1 - p)
    have e : 1 - (1 - p) = p := by ring
    rw [e] at hsym
    rw [hsym]
    linarith
  · intro hc
    obtain ⟨k0, k1⟩ := invNormalCdf_central_sq _ hc
    exact invNormalCdfDen_pos _ k0 k1
  · intro hc
    have hpos : 0 < min p (1 - p) := lt_min h0 (by linarith)
    have hle : min p (1 - p) ≤ 0.5 := by
      rcases le_total p (1 - p) with h | h
      · rw [min_eq_left h]; norm_num; linarith
      · rw [min_eq_right h]; norm_num; linarith
    generalize min p (1 - p) = u at hc hpos hle ⊢
    have hu : u ≤ 0.08 := by
      by_contra hcon
      apply hc
      rw [abs_lt]
      constructor <;> norm_num at hcon hle ⊢ <;> linarith
    have := invNormalCdf_tail_log u hpos hu
    exact ⟨hpos, by linarith⟩

/-- Witness of C20, one point in the tail regime below `0.5` and one in the central regime
above it. -/
theorem invNormalCdf_sign_witness :
    invNormalCdf Real.log 0.01 < 0 ∧ 0 < invNormalCdf Real.log 0.7 :=
  ⟨(invNormalCdf_sign 0.01 (by norm_num) (by norm_num)).1 (by norm_num),
   (invNormalCdf_sign 0.7 (by norm_num) (by norm_num)).2.2.1 (by norm_num)⟩

/-! ## Binary64 rounding -/

theorem roundHalfEven_of_lt (m : ℚ) (n : ℤ) (h1 : (n : ℚ) - 1 / 2 < m) (h2 : m < n + 1 / 2) :
    roundHalfEven m = n := by
  unfold roundHalfEven
  rcases lt_or_le m n with hlt | hge
  · have hfl : ⌊m⌋ = n - 1 := by
      rw [Int.floor_eq_iff]
      push_cast
      constructor <;> linarith
    rw [hfl]
    push_cast
    have h3 : ¬ (m - ((n : ℚ) - 1) < 1 / 2) := by
      intro hc; linarith
    have h4 : 1 / 2 < m - ((n : ℚ) - 1) := by linarith
    rw [if_neg h3, if_pos h4]
    ring
  · have hfl : ⌊m⌋ = n := by
      rw [Int.floor_eq_iff]
      constructor <;> linarith
    rw [hfl]
    have h3 : m - (n : ℚ) < 1 / 2 := by linarith
    rw [if_pos h3]

theorem roundHalfEven_ge_floor (m : ℚ) : ⌊m⌋ ≤ roundHalfEven m := by
  unfold roundHalfEven
  split_ifs <;> omega

theorem roundHalfEven_le_floor_succ (m : ℚ) : roundHalfEven m ≤ ⌊m⌋ + 1 := by
  unfold roundHalfEven
  split_ifs <;> omega

theorem roundHalfEven_intCast (n : ℤ) : roundHalfEven (n : ℚ) = n :=
  roundHalfEven_of_lt _ n (by linarith) (by linarith)

theorem roundHalfEven_mono {a b : ℚ} (h : a ≤ b) : roundHalfEven a ≤ roundHalfEven b := by
  rcases lt_or_eq_of_le (Int.floor_mono h) with hlt | heq
  · calc roundHalfEven a ≤ ⌊a⌋ + 1 := roundHalfEven_le_floor_succ a
      _ ≤ ⌊b⌋ := hlt
      _ ≤ roundHalfEven b := roundHalfEven_ge_floor b
  · unfold roundHalfEven
    rw [← heq]
    split_ifs <;> first | omega | linarith

theorem int_log_two_eq (q : ℚ) (e : ℤ) (h1 : (2 : ℚ) ^ e ≤ q) (h2 : q < (2 : ℚ) ^ (e + 1)) :
    Int.log 2 q = e := by
  have hq : 0 < q := lt_of_lt_of_le (by positivity) h1
  apply le_antisymm
  · have := (Int.lt_zpow_iff_log_lt (b := 2) (by norm_num) hq).mp (by exact_mod_cast h2)
    omega
  · exact (Int.zpow_le_iff_le_log (b := 2) (by norm_num) hq).mp (by exact_mod_cast h1)

theorem roundDouble_of_pos (q : ℚ) (e n : ℤ) (h1 : (2 : ℚ) ^ e ≤ q) (h2 : q < (2 : ℚ) ^ (e + 1))
    (h3 : (n : ℚ) - 1 / 2 < q / 2 ^ (e - 52)) (h4 : q / 2 ^ (e - 52) < n + 1 / 2) :
    roundDouble q = n * 2 ^ (e - 52) := by
  have hq : 0 < q := lt_of_lt_of_le (by positivity) h1
  unfold roundDouble
  rw [if_neg hq.ne', if_pos hq, int_log_two_eq q e h1 h2, roundHalfEven_of_lt _ n h3 h4]

theorem roundDouble_zero : roundDouble 0 = 0 := by
  simp [roundDouble]

theorem roundDouble_neg (q : ℚ) : roundDouble (-q) = -roundDouble q := by
  rcases lt_trichotomy q 0 with h | h | h
  · have h1 : 0 < -q := by linarith
    have h2 : ¬ 0 < q := by linarith
    simp only [roundDouble, h.ne, h1.ne', h1, h2, if_true, if_false, neg_neg]
  · subst h; simp [roundDouble]
  · have h1 : ¬ 0 < -q := by linarith
    have h2 : -q ≠ 0 := by linarith
    simp only [roundDouble, h.ne', h1, h2, h, if_true, if_false, neg_neg]

/-- A positive number rounds into the closed binade it lies in. -/
theorem roundDouble_pos_bounds (q : ℚ) (hq : 0 < q) :
    (2 : ℚ) ^ (Int.log 2 q) ≤ roundDouble q ∧ roundDouble q ≤ (2 : ℚ) ^ (Int.log 2 q + 1) := by
  have hlo : (2 : ℚ) ^ (Int.log 2 q) ≤ q := Int.zpow_log_le_self (by norm_num) hq
  have hhi : q < (2 : ℚ) ^ (Int.log 2 q + 1) := Int.lt_zpow_succ_log_self (by norm_num) q
  have hu : (0 : ℚ) < 2 ^ (Int.log 2 q - 52) := by positivity
  have e1 : (2 : ℚ) ^ (Int.log 2 q) = ((2 ^ 52 : ℤ) : ℚ) * 2 ^ (Int.log 2 q - 52) := by
    rw [zpow_sub₀ (by norm_num)]
    push_cast
    field_simp
    norm_num
    ring
  have e2 : (2 : ℚ) ^ (Int.log 2 q + 1) = ((2 ^ 53 : ℤ) : ℚ) * 2 ^ (Int.log 2 q - 52) := by
    rw [zpow_sub₀ (by norm_num), zpow_add₀ (by norm_num)]
    push_cast
    field_simp
    norm_num
    ring
  have hm1 : ((2 ^ 52 : ℤ) : ℚ) ≤ q / 2 ^ (Int.log 2 q - 52) := by
    rw [le_div_iff₀ hu, ← e1]; exact hlo
  have hm2 : q / 2 ^ (Int.log 2 q - 52) ≤ ((2 ^ 53 : ℤ) : ℚ) := by
    rw [div_le_iff₀ hu, ← e2]; exact hhi.le
  have k1 := roundHalfEven_mono hm1
  have k2 := roundHalfEven_mono hm2
  rw [roundHalfEven_intCast] at k1 k2
  unfold roundDouble
  rw [if_neg hq.ne', if_pos hq, e1, e2]
  constructor
  · exact mul_le_mul_of_nonneg_right (by exact_mod_cast k1) hu.le
  · exact mul_le_mul_of_nonneg_right (by exact_mod_cast k2) hu.le

theorem roundDouble_pos (q : ℚ) (hq : 0 < q) : 0 < roundDouble q :=
  lt_of_lt_of_le (by positivity) (roundDouble_pos_bounds q hq).1

theorem roundDouble_mono_pos {a b : ℚ} (ha : 0 < a) (h : a ≤ b) :
    roundDouble a ≤ roundDouble b := by
  have hb : 0 < b := lt_of_lt_of_le ha h
  rcases lt_or_eq_of_le (Int.log_mono_right ha h : Int.log 2 a ≤ Int.log 2 b) with hlt | heq
  · calc roundDouble a ≤ (2 : ℚ) ^ (Int.log 2 a + 1) := (roundDouble_pos_bounds a ha).2
      _ ≤ (2 : ℚ) ^ (Int.log 2 b) := zpow_le_zpow_right₀ (by norm_num) (by omega)
      _ ≤ roundDouble b := (roundDouble_pos_bounds b hb).1
  · unfold roundDouble
    rw [if_neg ha.ne', if_pos ha, if_neg hb.ne', if_pos hb, heq]
    have hu : (0 : ℚ) < 2 ^ (Int.log 2 b - 52) := by positivity
    apply mul_le_mul_of_nonneg_right _ hu.le
    exact_mod_cast roundHalfEven_mono (div_le_div_of_nonneg_right h hu.le)

theorem roundDouble_monotone : Monotone roundDouble := by
  intro a b h
  rcases lt_trichotomy a 0 with ha | ha | ha
  · rcases lt_trichotomy b 0 with hb | hb | hb
    · have := roundDouble_mono_pos (a := -b) (b := -a) (by linarith) (by linarith)
      rw [roundDouble_neg, roundDouble_neg] at this
      linarith
    · subst hb
      have := roundDouble_pos (-a) (by linarith)
      rw [roundDouble_neg] at this
      rw [roundDouble_zero]
      linarith
    · have h1 := roundDouble_pos (-a) (by linarith)
      rw [roundDouble_neg] at h1
      have h2 := roundDouble_pos b hb
      linarith
  · subst ha
    rcases lt_or_eq_of_le h with hb | hb
    · rw [roundDouble_zero]; exact (roundDouble_pos b hb).le
    · rw [← hb]
  · exact roundDouble_mono_pos ha h

theorem roundHalfEven_of_tie (m : ℚ) (k r : ℤ) (hm : m = k + 1 / 2) (hr : r = k ∨ r = k + 1)
    (heven : r % 2 = 0) : roundHalfEven m = r := by
  have hfl : ⌊m⌋ = k := by
    rw [Int.floor_eq_iff]
    constructor <;> linarith
  unfold roundHalfEven
  rw [hfl]
  have h1 : ¬ (m - (k : ℚ) < 1 / 2) := by
    intro hc; linarith
  have h2 : ¬ (1 / 2 < m - (k : ℚ)) := by
    intro hc; linarith
  rw [if_neg h1, if_neg h2]
  rcases hr with h | h
  · subst h
    rw [if_pos heven]
  · subst h
    have : ¬ (k % 2 = 0) := by omega
    rw [if_neg this]

theorem roundDouble_of_pos_tie (q : ℚ) (e k r : ℤ) (h1 : (2 : ℚ) ^ e ≤ q)
    (h2 : q < (2 : ℚ) ^ (e + 1)) (hm : q / 2 ^ (e - 52) = k + 1 / 2) (hr : r = k ∨ r = k + 1)
    (heven : r % 2 = 0) : roundDouble q = r * 2 ^ (e - 52) := by
  have hq : 0 < q := lt_of_lt_of_le (by positivity) h1
  unfold roundDouble
  rw [if_neg hq.ne', if_pos hq, int_log_two_eq q e h1 h2, roundHalfEven_of_tie _ k r hm hr heven]

theorem roundDouble_of_neg (q : ℚ) (e n : ℤ) (h1 : (2 : ℚ) ^ e ≤ -q) (h2 : -q < (2 : ℚ) ^ (e + 1))
    (h3 : (n : ℚ) - 1 / 2 < -q / 2 ^ (e - 52)) (h4 : -q / 2 ^ (e - 52) < n + 1 / 2) :
    roundDouble q = -(n * 2 ^ (e - 52)) := by
  have h := roundDouble_neg (-q)
  rw [neg_neg] at h
  rw [h, roundDouble_of_pos (-q) e n h1 h2 h3 h4]

theorem roundDouble_of_neg_tie (q : ℚ) (e k r : ℤ) (h1 : (2 : ℚ) ^ e ≤ -q)
    (h2 : -q < (2 : ℚ) ^ (e + 1)) (hm : -q / 2 ^ (e - 52) = k + 1 / 2) (hr : r = k ∨ r = k + 1)
    (heven : r % 2 = 0) : roundDouble q = -(r * 2 ^ (e - 52)) := by
  have h := roundDouble_neg (-q)
  rw [neg_neg] at h
  rw [h, roundDouble_of_pos_tie (-q) e k r h1 h2 hm hr heven]
/-- The result of rounding a positive number is an integer significand between `2 ^ 52` and
`2 ^ 53` times the unit of the binade of the argument. -/
theorem roundDouble_pos_repr (q : ℚ) (hq : 0 < q) :
    ∃ n : ℤ, (2 : ℤ) ^ 52 ≤ n ∧ n ≤ (2 : ℤ) ^ 53 ∧
      roundDouble q = n * 2 ^ (Int.log 2 q - 52) := by
  have hlo : (2 : ℚ) ^ (Int.log 2 q) ≤ q := Int.zpow_log_le_self (by norm_num) hq
  have hhi : q < (2 : ℚ) ^ (Int.log 2 q + 1) := Int.lt_zpow_succ_log_self (by norm_num) q
  have hu : (0 : ℚ) < 2 ^ (Int.log 2 q - 52) := by positivity
  have e1 : (2 : ℚ) ^ (Int.log 2 q) = ((2 ^ 52 : ℤ) : ℚ) * 2 ^ (Int.log 2 q - 52) := by
    rw [zpow_sub₀ (by norm_num)]
    push_cast
    field_simp
    norm_num
    ring
  have e2 : (2 : ℚ) ^ (Int.log 2 q + 1) = ((2 ^ 53 : ℤ) : ℚ) * 2 ^ (Int.log 2 q - 52) := by
    rw [zpow_sub₀ (by norm_num), zpow_add₀ (by norm_num)]
    push_cast
    field_simp
    norm_num
    ring
  have hm1 : ((2 ^ 52 : ℤ) : ℚ) ≤ q / 2 ^ (Int.log 2 q - 52) := by
    rw [le_div_iff₀ hu, ← e1]; exact hlo
  have hm2 : q / 2 ^ (Int.log 2 q - 52) ≤ ((2 ^ 53 : ℤ) : ℚ) := by
    rw [div_le_iff₀ hu, ← e2]; exact hhi.le
  have k1 := roundHalfEven_mono hm1
  have k2 := roundHalfEven_mono hm2
  rw [roundHalfEven_intCast] at k1 k2
  refine ⟨roundHalfEven (q / 2 ^ (Int.log 2 q - 52)), k1, k2, ?_⟩
  unfold roundDouble
  rw [if_neg hq.ne', if_pos hq]

theorem roundDouble_idem_pos (q : ℚ) (hq : 0 < q) : roundDouble (roundDouble q) = roundDouble q := by
  obtain ⟨n, hn1, hn2, hr⟩ := roundDouble_pos_repr q hq
  have hu : (0 : ℚ) < 2 ^ (Int.log 2 q - 52) := by positivity
  have hn1q : ((2 : ℚ) ^ 52) ≤ (n : ℚ) := by exact_mod_cast hn1
  have hn2q : (n : ℚ) ≤ (2 : ℚ) ^ 53 := by exact_mod_cast hn2
  have e1 : (2 : ℚ) ^ (Int.log 2 q) = (2 : ℚ) ^ 52 * 2 ^ (Int.log 2 q - 52) := by
    rw [zpow_sub₀ (by norm_num)]
    field_simp
    norm_num
    ring
  have e2 : (2 : ℚ) ^ (Int.log 2 q + 1) = (2 : ℚ) ^ 53 * 2 ^ (Int.log 2 q - 52) := by
    rw [zpow_sub₀ (by norm_num), zpow_add₀ (by norm_num)]
    field_simp
    norm_num
    ring
  rw [hr]
  rcases lt_or_eq_of_le hn2 with hlt | heq
  · have hltq : (n : ℚ) < (2 : ℚ) ^ 53 := by exact_mod_cast hlt
    have hdiv : (n : ℚ) * 2 ^ (Int.log 2 q - 52) / 2 ^ (Int.log 2 q - 52) = n := by
      field_simp
    exact roundDouble_of_pos _ (Int.log 2 q) n
      (by rw [e1]; exact mul_le_mul_of_nonneg_right hn1q hu.le)
      (by rw [e2]; exact mul_lt_mul_of_pos_right hltq hu)
      (by rw [hdiv]; linarith) (by rw [hdiv]; linarith)
  · subst heq
    have e3 : (((2 : ℤ) ^ 53 : ℤ) : ℚ) * 2 ^ (Int.log 2 q - 52) = (2 : ℚ) ^ (Int.log 2 q + 1) := by
      rw [e2]; push_cast; ring
    have e4 : (2 : ℚ) ^ (Int.log 2 q + 1) / 2 ^ (Int.log 2 q + 1 - 52) = ((2 ^ 52 : ℤ) : ℚ) := by
      rw [zpow_sub₀ (by norm_num)]
      push_cast
      field_simp
      norm_num
    have e5 : (((2 : ℤ) ^ 52 : ℤ) : ℚ) * 2 ^ (Int.log 2 q + 1 - 52) = (2 : ℚ) ^ (Int.log 2 q + 1) := by
      rw [zpow_sub₀ (by norm_num)]
      push_cast
      field_simp
      norm_num
      ring
    rw [e3, roundDouble_of_pos _ (Int.log 2 q + 1) (2 ^ 52) le_rfl
      (zpow_lt_zpow_right₀ (by norm_num) (by omega))
      (by rw [e4]; linarith) (by rw [e4]; linarith), e5]

/-- Rounding a binary64 number returns it. -/
theorem roundDouble_idem (q : ℚ) : roundDouble (roundDouble q) = roundDouble q := by
  rcases lt_trichotomy q 0 with h | h | h
  · have h1 := roundDouble_idem_pos (-q) (by linarith)
    rw [roundDouble_neg, roundDouble_neg] at h1
    exact neg_injective h1
  · subst h
    rw [roundDouble_zero, roundDouble_zero]
  · exact roundDouble_idem_pos q h

theorem roundHalfEven_err (m : ℚ) : |(roundHalfEven m : ℚ) - m| ≤ 1 / 2 := by
  have h1 : (⌊m⌋ : ℚ) ≤ m := Int.floor_le m
  have h2 : m < ⌊m⌋ + 1 := Int.lt_floor_add_one m
  unfold roundHalfEven
  rw [abs_le]
  split_ifs <;> push_cast <;> constructor <;> linarith

theorem roundDouble_rel_pos (q : ℚ) (hq : 0 < q) : |roundDouble q - q| ≤ 1 / 2 ^ 53 * |q| := by
  have hlo : (2 : ℚ) ^ (Int.log 2 q) ≤ q := Int.zpow_log_le_self (by norm_num) hq
  have hu : (0 : ℚ) < 2 ^ (Int.log 2 q - 52) := by positivity
  have e1 : (2 : ℚ) ^ (Int.log 2 q) = (2 : ℚ) ^ 52 * 2 ^ (Int.log 2 q - 52) := by
    rw [zpow_sub₀ (by norm_num)]
    field_simp
    norm_num
    ring
  have hm := roundHalfEven_err (q / 2 ^ (Int.log 2 q - 52))
  have e2 : roundDouble q - q
      = ((roundHalfEven (q / 2 ^ (Int.log 2 q - 52)) : ℚ) - q / 2 ^ (Int.log 2 q - 52))
        * 2 ^ (Int.log 2 q - 52) := by
    unfold roundDouble
    rw [if_neg hq.ne', if_pos hq]
    field_simp
  rw [e2, abs_mul, abs_of_pos hu, abs_of_pos hq]
  have h3 : |(roundHalfEven (q / 2 ^ (Int.log 2 q - 52)) : ℚ) - q / 2 ^ (Int.log 2 q - 52)|
      * 2 ^ (Int.log 2 q - 52) ≤ 1 / 2 * 2 ^ (Int.log 2 q - 52) :=
    mul_le_mul_of_nonneg_right hm hu.le
  have h4 : (1 : ℚ) / 2 * 2 ^ (Int.log 2 q - 52) = 1 / 2 ^ 53 * 2 ^ (Int.log 2 q) := by
    rw [e1]
    norm_num
    ring
  have h5 : (1 : ℚ) / 2 ^ 53 * 2 ^ (Int.log 2 q) ≤ 1 / 2 ^ 53 * q :=
    mul_le_mul_of_nonneg_left hlo (by positivity)
  linarith

/-- Binary64 rounding has relative error at most `2 ^ (-53)`. -/
theorem roundDouble_rel (q : ℚ) : |roundDouble q - q| ≤ 1 / 2 ^ 53 * |q| := by
  rcases lt_trichotomy q 0 with h | h | h
  · have h1 := roundDouble_rel_pos (-q) (by linarith)
    rw [roundDouble_neg, abs_neg] at h1
    have e : -roundDouble q - -q = -(roundDouble q - q) := by ring
    rw [e, abs_neg] at h1
    exact h1
  · subst h
    simp [roundDouble_zero]
  · exact roundDouble_rel_pos q h

/-! ## The timeline in rounded arithmetic -/

section TimelineR

variable {α : Type} [LinearOrderedField α]

theorem UOC.dateR_shift (rnd : α → α) (s f : α) (k : Nat) :
    UOC.dateR rnd (rnd (s + f)) f k = UOC.dateR rnd s f (k + 1) := by
  induction k with
  | zero => rfl
  | succ k ih =>
    rw [UOC.dateR, ih]
    rfl

/-- If the rounded loop condition holds at the first `n` running sums from `t` and fails at the
next one, then with at least `n` units of fuel the loop ends and has pushed exactly these `n`
dates. -/
theorem UOC.whileLoopR_run (rnd : α → α) (M f : α) (n : Nat) :
    ∀ (fuel : Nat) (t : α) (tl : List α), n ≤ fuel →
      (∀ k : Nat, k < n → rnd (M - UOC.dateR rnd t f k) > rnd ONE_HOUR) →
      ¬ (rnd (M - UOC.dateR rnd t f n) > rnd ONE_HOUR) →
      UOC.whileLoopR rnd M f fuel t tl
        = some (tl ++ (List.range n).map (UOC.dateR rnd t f)) := by
  induction n with
  | zero =>
    intro fuel t tl _ _ hstop
    have hstop1 : ¬ (rnd (M - t) > rnd ONE_HOUR) := hstop
    cases fuel with
    | zero => simp [UOC.whileLoopR, hstop1]
    | succ m => simp [UOC.whileLoopR, hstop1]
  | succ n ih =>
    intro fuel t tl hfuel hgo hstop
    cases fuel with
    | zero => omega
    | succ m =>
      have h0 : rnd (M - t) > rnd ONE_HOUR := hgo 0 (Nat.succ_pos n)
      have hgo1 : ∀ k : Nat, k < n → rnd (M - UOC.dateR rnd (rnd (t + f)) f k) > rnd ONE_HOUR := by
        intro k hk
        rw [UOC.dateR_shift]
        exact hgo (k + 1) (Nat.succ_lt_succ hk)
      have hstop1 : ¬ (rnd (M - UOC.dateR rnd (rnd (t + f)) f n) > rnd ONE_HOUR) := by
        rw [UOC.dateR_shift]
        exact hstop
      have := ih m (rnd (t + f)) (tl ++ [t]) (Nat.le_of_succ_le_succ hfuel) hgo1 hstop1
      rw [UOC.whileLoopR, if_pos h0, this, List.range_succ_eq_map, List.map_cons, List.map_map,
        List.append_assoc]
      congr 2
      simp only [List.singleton_append, List.cons.injEq]
      refine ⟨rfl, ?_⟩
      apply List.map_congr_left
      intro k _
      simp only [Function.comp]
      exact UOC.dateR_shift rnd t f k

theorem UOC.datesR_getLast (rnd : α → α) (s f : α) (n : Nat) :
    ((List.range (n + 1)).map (UOC.dateR rnd s f)).getLast? = some (UOC.dateR rnd s f n) := by
  rw [List.range_succ, List.map_append]
  simp

theorem UOC.datesR_length (rnd : α → α) (s f M : α) (n : Nat) :
    ((List.range (n + 1)).map (UOC.dateR rnd s f) ++ [M]).length = n + 2 := by
  simp

theorem UOC.datesR_getElem (rnd : α → α) (s f M : α) (n i : Nat) (hi : i ≤ n)
    (h : i < ((List.range (n + 1)).map (UOC.dateR rnd s f) ++ [M]).length) :
    ((List.range (n + 1)).map (UOC.dateR rnd s f) ++ [M])[i] = UOC.dateR rnd s f i := by
  rw [List.getElem_append_left (by simp; omega)]
  simp

theorem UOC.datesR_getElem_last (rnd : α → α) (s f M : α) (n : Nat)
    (h : n + 1 < ((List.range (n + 1)).map (UOC.dateR rnd s f) ++ [M]).length) :
    ((List.range (n + 1)).map (UOC.dateR rnd s f) ++ [M])[n + 1] = M := by
  rw [List.getElem_append_right (by simp)]
  simp

theorem UOC.datesR_last (rnd : α → α) (s f M : α) (n : Nat) :
    ((List.range (n + 1)).map (UOC.dateR rnd s f) ++ [M]).getLast? = some M := by
  simp

/-- The loop started by the constructor, when the rounded condition holds at the running sums
number `1, ..., n` and fails at number `n + 1`. -/
theorem UOC.whileLoopR_eq (rnd : α → α) (s M f : α) (n : Nat)
    (hgo : ∀ k : Nat, 1 ≤ k → k ≤ n → rnd (M - UOC.dateR rnd s f k) > rnd ONE_HOUR)
    (hstop : ¬ (rnd (M - UOC.dateR rnd s f (n + 1)) > rnd ONE_HOUR))
    (fuel : Nat) (hfuel : n ≤ fuel) :
    UOC.whileLoopR rnd M f fuel (rnd (s + f)) [s]
      = some ((List.range (n + 1)).map (UOC.dateR rnd s f)) := by
  have hrun := UOC.whileLoopR_run rnd M f n fuel (rnd (s + f)) [s] hfuel
    (fun k hk => by rw [UOC.dateR_shift]; exact hgo (k + 1) (by omega) (by omega))
    (by rw [UOC.dateR_shift]; exact hstop)
  rw [hrun, List.range_succ_eq_map, List.map_cons, List.map_map]
  simp only [List.singleton_append, Option.some.injEq, List.cons.injEq]
  refine ⟨rfl, ?_⟩
  apply List.map_congr_left
  intro k _
  simp only [Function.comp]
  exact UOC.dateR_shift rnd s f k

/-- The constructor in rounded arithmetic: the timeline is the running sums number `0, ..., n`
followed by maturity. -/
theorem UOC.ctorR_eq (rnd : α → α) (s K B M f : α) (n : Nat)
    (hgo : ∀ k : Nat, 1 ≤ k → k ≤ n → rnd (M - UOC.dateR rnd s f k) > rnd ONE_HOUR)
    (hstop : ¬ (rnd (M - UOC.dateR rnd s f (n + 1)) > rnd ONE_HOUR))
    (hback : UOC.dateR rnd s f n < M) (fuel : Nat) (hfuel : n ≤ fuel) :
    UOC.ctorR rnd s fuel K B M f =
      some ⟨K, B, M, (List.range (n + 1)).map (UOC.dateR rnd s f) ++ [M]⟩ := by
  have hrun := UOC.whileLoopR_eq rnd s M f n hgo hstop fuel hfuel
  simp only [UOC.ctorR, hrun, UOC.datesR_getLast, if_pos hback]

/-- A rounded difference exceeds the rounded `ONE_HOUR` only if the exact difference does, for
a monotone rounding that maps the rounded `ONE_HOUR` to itself. -/
theorem UOC.gt_of_rnd_gt (rnd : α → α) (hmono : Monotone rnd)
    (hfix : rnd (rnd ONE_HOUR) = rnd ONE_HOUR) (x : α) (h : rnd x > rnd ONE_HOUR) :
    x > rnd (ONE_HOUR : α) := by
  by_contra hc
  have := hmono (not_lt.mp hc)
  rw [hfix] at this
  exact absurd h (not_lt.mpr this)

/-- The last monitoring date pushed is before maturity. -/
theorem UOC.dateR_back_lt (rnd : α → α) (hmono : Monotone rnd)
    (hfix : rnd (rnd ONE_HOUR) = rnd ONE_HOUR) (hpos : (0 : α) < rnd ONE_HOUR)
    (s M f : α) (hM : s < M) (n : Nat)
    (hgo : ∀ k : Nat, 1 ≤ k → k ≤ n → rnd (M - UOC.dateR rnd s f k) > rnd ONE_HOUR) :
    UOC.dateR rnd s f n < M := by
  rcases Nat.eq_zero_or_pos n with h0 | hn
  · subst h0; exact hM
  · have := UOC.gt_of_rnd_gt rnd hmono hfix _ (hgo n hn le_rfl)
    linarith

/-- While the loop condition holds, the running sums advance by at least `δ` each, when every
addition made while the condition holds advances by at least `δ`. -/
theorem UOC.dateR_progress (rnd : α → α) (s M f δ : α) (N : Nat)
    (hstep : ∀ k : Nat, k ≤ N →
      (∀ j : Nat, 1 ≤ j → j ≤ k → rnd (M - UOC.dateR rnd s f j) > rnd ONE_HOUR) →
      UOC.dateR rnd s f k + δ ≤ UOC.dateR rnd s f (k + 1))
    (hall : ∀ j : Nat, 1 ≤ j → j ≤ N + 1 → rnd (M - UOC.dateR rnd s f j) > rnd ONE_HOUR) :
    ∀ k : Nat, k ≤ N + 1 → s + k * δ ≤ UOC.dateR rnd s f k := by
  intro k
  induction k with
  | zero => intro _; simp [UOC.dateR]
  | succ k ih =>
    intro hk
    have h1 := ih (by omega)
    have h2 := hstep k (by omega) (fun j hj1 hj2 => hall j hj1 (by omega))
    push_cast
    linarith

/-- One addition under a relative rounding error of at most `ε`: while the loop condition
holds, the running sum stays between the reference time and maturity, and the next addition
advances it by at least `UOC.advance`. -/
theorem UOC.dateR_step (rnd : α → α) (hmono : Monotone rnd)
    (hfix : rnd (rnd ONE_HOUR) = rnd ONE_HOUR) (hpos : (0 : α) < rnd ONE_HOUR)
    (ε : α) (hε : 0 ≤ ε) (hrel : ∀ z : α, |rnd z - z| ≤ ε * |z|)
    (s M f : α) (hf : 0 < f) (hadv : 0 < UOC.advance ε s M f) :
    ∀ k : Nat, (∀ j : Nat, 1 ≤ j → j ≤ k → rnd (M - UOC.dateR rnd s f j) > rnd ONE_HOUR) →
      s ≤ UOC.dateR rnd s f k ∧
      UOC.dateR rnd s f k + UOC.advance ε s M f ≤ UOC.dateR rnd s f (k + 1) := by
  have key : ∀ t : α, |t| ≤ max |s| |M| → t + UOC.advance ε s M f ≤ rnd (t + f) := by
    intro t ht
    have h1 : |t + f| ≤ max |s| |M| + f := by
      calc |t + f| ≤ |t| + |f| := abs_add t f
        _ = |t| + f := by rw [abs_of_pos hf]
        _ ≤ max |s| |M| + f := by linarith
    have h2 := hrel (t + f)
    have h3 : ε * |t + f| ≤ ε * (max |s| |M| + f) := mul_le_mul_of_nonneg_left h1 hε
    have h4 := (abs_le.mp h2).1
    unfold UOC.advance
    linarith
  intro k
  induction k with
  | zero =>
    intro _
    exact ⟨le_rfl, key s (le_max_left _ _)⟩
  | succ k ih =>
    intro hall
    obtain ⟨h1, h2⟩ := ih (fun j hj1 hj2 => hall j hj1 (by omega))
    have h3 : s ≤ UOC.dateR rnd s f (k + 1) := by linarith
    have h4 := UOC.gt_of_rnd_gt rnd hmono hfix _ (hall (k + 1) (by omega) le_rfl)
    have h5 : |UOC.dateR rnd s f (k + 1)| ≤ max |s| |M| := by
      rw [abs_le]
      constructor
      · have := neg_abs_le s
        have := le_max_left |s| |M|
        linarith
      · have := le_abs_self M
        have := le_max_right |s| |M|
        linarith
    exact ⟨h3, key _ h5⟩

variable [FloorRing α]

/-- Termination in rounded arithmetic: when each addition made while the loop condition holds
advances the running sum by at least `δ > 0`, the loop condition fails at a running sum of
number at most `⌈(M - s - ONE_HOUR) / δ⌉₊ + 1`, and holds at all the running sums before the
first failure. -/
theorem UOC.stop_exists (rnd : α → α) (hmono : Monotone rnd)
    (hfix : rnd (rnd ONE_HOUR) = rnd ONE_HOUR) (s M f δ : α) (hδ : 0 < δ)
    (hstep : ∀ k : Nat, k ≤ ⌈(M - s - rnd ONE_HOUR) / δ⌉₊ →
      (∀ j : Nat, 1 ≤ j → j ≤ k → rnd (M - UOC.dateR rnd s f j) > rnd ONE_HOUR) →
      UOC.dateR rnd s f k + δ ≤ UOC.dateR rnd s f (k + 1)) :
    ∃ n : Nat, n ≤ ⌈(M - s - rnd ONE_HOUR) / δ⌉₊ ∧
      (∀ k : Nat, 1 ≤ k → k ≤ n → rnd (M - UOC.dateR rnd s f k) > rnd ONE_HOUR) ∧
      ¬ (rnd (M - UOC.dateR rnd s f (n + 1)) > rnd ONE_HOUR) := by
  classical
  have hex : ∃ k : Nat, ¬ (rnd (M - UOC.dateR rnd s f (k + 1)) > rnd ONE_HOUR) := by
    by_contra hno
    have hall : ∀ j : Nat, 1 ≤ j → rnd (M - UOC.dateR rnd s f j) > rnd ONE_HOUR := by
      intro j hj
      have := not_exists.mp hno (j - 1)
      rw [Nat.sub_add_cancel hj] at this
      exact not_not.mp this
    have h1 := UOC.gt_of_rnd_gt rnd hmono hfix _
      (hall (⌈(M - s - rnd ONE_HOUR) / δ⌉₊ + 1) (by omega))
    have h2 := UOC.dateR_progress rnd s M f δ _ hstep (fun j hj _ => hall j hj)
      (⌈(M - s - rnd ONE_HOUR) / δ⌉₊ + 1) le_rfl
    have h3 : (M - s - rnd ONE_HOUR) / δ ≤ (⌈(M - s - rnd ONE_HOUR) / δ⌉₊ : Nat) := Nat.le_ceil _
    rw [div_le_iff₀ hδ] at h3
    push_cast at h2
    nlinarith
  have hgo : ∀ k : Nat, 1 ≤ k → k ≤ Nat.find hex →
      rnd (M - UOC.dateR rnd s f k) > rnd ONE_HOUR := by
    intro k hk1 hk
    have := Nat.find_min hex (m := k - 1) (by omega)
    rw [Nat.sub_add_cancel hk1] at this
    exact not_not.mp this
  refine ⟨Nat.find hex, ?_, hgo, Nat.find_spec hex⟩
  by_contra hgt
  have hN : ⌈(M - s - rnd ONE_HOUR) / δ⌉₊ + 1 ≤ Nat.find hex := by omega
  have hall : ∀ j : Nat, 1 ≤ j → j ≤ ⌈(M - s - rnd ONE_HOUR) / δ⌉₊ + 1 →
      rnd (M - UOC.dateR rnd s f j) > rnd ONE_HOUR :=
    fun j hj1 hj2 => hgo j hj1 (le_trans hj2 hN)
  have h1 := UOC.gt_of_rnd_gt rnd hmono hfix _
    (hall (⌈(M - s - rnd ONE_HOUR) / δ⌉₊ + 1) (by omega) le_rfl)
  have h2 := UOC.dateR_progress rnd s M f δ _ hstep hall
    (⌈(M - s - rnd ONE_HOUR) / δ⌉₊ + 1) le_rfl
  have h3 : (M - s - rnd ONE_HOUR) / δ ≤ (⌈(M - s - rnd ONE_HOUR) / δ⌉₊ : Nat) := Nat.le_ceil _
  rw [div_le_iff₀ hδ] at h3
  push_cast at h2
  nlinarith

end TimelineR

section TimelineRounded

variable {α : Type} [LinearOrderedField α]

/-- With the identity for `rnd` the rounded loop is the loop in exact arithmetic. -/
theorem UOC.whileLoopR_id (M f : α) (fuel : Nat) (t : α) (tl : List α) :
    UOC.whileLoopR id M f fuel t tl = UOC.whileLoop M f fuel t tl := by
  induction fuel generalizing t tl with
  | zero => rfl
  | succ m ih =>
    rw [UOC.whileLoopR, UOC.whileLoop, ih]
    rfl

/-- With the identity for `rnd` the rounded constructor is the constructor in exact
arithmetic. -/
theorem UOC.ctorR_id (s : α) (fuel : Nat) (K B M f : α) :
    UOC.ctorR id s fuel K B M f = UOC.ctor s fuel K B M f := by
  simp only [UOC.ctorR, UOC.ctor, UOC.whileLoopR_id, id]

/-- When an addition leaves the running sum unchanged while the loop condition holds, the loop
never ends: it returns `none` for every amount of fuel. -/
theorem UOC.whileLoopR_stuck (rnd : α → α) (M f t : α) (hadd : rnd (t + f) = t)
    (hc : rnd (M - t) > rnd ONE_HOUR) :
    ∀ (fuel : Nat) (tl : List α), UOC.whileLoopR rnd M f fuel t tl = none := by
  intro fuel
  induction fuel with
  | zero => intro tl; simp [UOC.whileLoopR, hc]
  | succ m ih =>
    intro tl
    rw [UOC.whileLoopR, if_pos hc, hadd]
    exact ih _

variable [FloorRing α]

/-- Claim C15, amended.  In rounded arithmetic (every `double` operation of the constructor
followed by `rnd`, a monotone rounding of relative error at most `ε` that fixes the rounded
`ONE_HOUR`, positive), for every `monitorFreq = f > 0` with
`f > ε * (max |s| |M| + f)` and every maturity `M` later than the reference time `s`: there is
`n ≥ 0` such that the rounded loop condition `rnd (M - t_k) > rnd ONE_HOUR` holds at the
running sums `t_1, ..., t_n` and fails at `t_(n+1)`, where `t_0 = s` and
`t_(k+1) = rnd (t_k + f)`; the constructor returns, and the timeline is exactly
`t_0, t_1, ..., t_n, M`.  When the additions producing these dates are exact,
`t_k = s + k * f` for every `k ≤ n`. -/
theorem UOC_timeline_rounded_content (rnd : α → α) (hmono : Monotone rnd)
    (hfix : rnd (rnd ONE_HOUR) = rnd ONE_HOUR) (hpos : (0 : α) < rnd ONE_HOUR)
    (ε : α) (hε : 0 ≤ ε) (hrel : ∀ z : α, |rnd z - z| ≤ ε * |z|)
    (systemTime strike barrier maturity monitorFreq : α) (hf : 0 < monitorFreq)
    (hadv : 0 < UOC.advance ε systemTime maturity monitorFreq) (hM : systemTime < maturity) :
    ∃ n : Nat,
      (∀ k : Nat, 1 ≤ k → k ≤ n →
        rnd (maturity - UOC.dateR rnd systemTime monitorFreq k) > rnd ONE_HOUR) ∧
      ¬ (rnd (maturity - UOC.dateR rnd systemTime monitorFreq (n + 1)) > rnd ONE_HOUR) ∧
      (∃ fuel0 : Nat, ∀ fuel : Nat, fuel0 ≤ fuel → ∃ u : UOC α,
        UOC.ctorR rnd systemTime fuel strike barrier maturity monitorFreq = some u ∧
        u.timeline =
          (List.range (n + 1)).map (UOC.dateR rnd systemTime monitorFreq) ++ [maturity]) ∧
      ((∀ k : Nat, k < n → rnd (UOC.dateR rnd systemTime monitorFreq k + monitorFreq)
          = UOC.dateR rnd systemTime monitorFreq k + monitorFreq) →
        ∀ k : Nat, k ≤ n →
          UOC.dateR rnd systemTime monitorFreq k = systemTime + k * monitorFreq) := by
  obtain ⟨n, _, hgo, hstop⟩ := UOC.stop_exists rnd hmono hfix systemTime maturity monitorFreq
    (UOC.advance ε systemTime maturity monitorFreq) hadv
    (fun k _ hall => (UOC.dateR_step rnd hmono hfix hpos ε hε hrel systemTime maturity
      monitorFreq hf hadv k hall).2)
  have hback := UOC.dateR_back_lt rnd hmono hfix hpos systemTime maturity monitorFreq hM n hgo
  refine ⟨n, hgo, hstop, ⟨n, fun fuel hfuel => ⟨_, UOC.ctorR_eq rnd systemTime strike barrier
    maturity monitorFreq n hgo hstop hback fuel hfuel, rfl⟩⟩, ?_⟩
  intro hex k
  induction k with
  | zero => intro _; simp [UOC.dateR]
  | succ k ih =>
    intro hk
    rw [UOC.dateR, hex k (by omega), ih (by omega)]
    push_cast
    ring

/-- Claim C18, amended.  In rounded arithmetic (a monotone rounding `rnd` of relative error at
most `ε` that fixes the rounded `ONE_HOUR`, positive), for every maturity, every reference time
and every `monitorFreq = f > 0` (smaller than `ONE_HOUR` or not) with
`f > ε * (max |systemTime| |maturity| + f)`: the `while` loop ends within
`⌈(maturity - systemTime - ONE_HOUR) / (f - ε * (max |systemTime| |maturity| + f))⌉₊`
iterations: with that much fuel or more the loop returns, having pushed at most that many
dates, and the constructor returns an object.  In exact arithmetic (`ε = 0`) the condition is
`f > 0` and the bound is `⌈(maturity - systemTime - ONE_HOUR) / f⌉₊`. -/
theorem UOC_ctor_terminates_rounded (rnd : α → α) (hmono : Monotone rnd)
    (hfix : rnd (rnd ONE_HOUR) = rnd ONE_HOUR) (hpos : (0 : α) < rnd ONE_HOUR)
    (ε : α) (hε : 0 ≤ ε) (hrel : ∀ z : α, |rnd z - z| ≤ ε * |z|)
    (systemTime strike barrier maturity monitorFreq : α) (hf : 0 < monitorFreq)
    (hadv : 0 < UOC.advance ε systemTime maturity monitorFreq) :
    ∀ fuel : Nat,
      ⌈(maturity - systemTime - rnd ONE_HOUR)
        / UOC.advance ε systemTime maturity monitorFreq⌉₊ ≤ fuel →
      (∃ tl : List α,
        UOC.whileLoopR rnd maturity monitorFreq fuel (rnd (systemTime + monitorFreq)) [systemTime]
          = some tl ∧
        tl.length - 1 ≤ ⌈(maturity - systemTime - rnd ONE_HOUR)
          / UOC.advance ε systemTime maturity monitorFreq⌉₊) ∧
      ∃ u : UOC α, UOC.ctorR rnd systemTime fuel strike barrier maturity monitorFreq = some u := by
  intro fuel hfuel
  obtain ⟨n, hn, hgo, hstop⟩ := UOC.stop_exists rnd hmono hfix systemTime maturity monitorFreq
    (UOC.advance ε systemTime maturity monitorFreq) hadv
    (fun k _ hall => (UOC.dateR_step rnd hmono hfix hpos ε hε hrel systemTime maturity
      monitorFreq hf hadv k hall).2)
  have hrun := UOC.whileLoopR_eq rnd systemTime maturity monitorFreq n hgo hstop fuel
    (le_trans hn hfuel)
  refine ⟨⟨_, hrun, ?_⟩, ?_⟩
  · simpa using hn
  · simp only [UOC.ctorR, hrun]
    split
    · exact ⟨_, rfl⟩
    · split_ifs
      · exact ⟨_, rfl⟩
      · exact ⟨_, rfl⟩

/-- Claim C6, amended.  In rounded arithmetic (a monotone rounding `rnd` of relative error at
most `ε` that fixes the rounded `ONE_HOUR`, positive), for every maturity later than the
reference time and every `monitorFreq = f > 0` with
`f - ε * (max |systemTime| |maturity| + f) ≥ ONE_HOUR`: two consecutive timeline elements other
than the final pair are not closer to each other than `ONE_HOUR`.  In exact arithmetic
(`ε = 0`) the condition is `f ≥ ONE_HOUR`. -/
theorem UOC_timeline_min_spacing_rounded (rnd : α → α) (hmono : Monotone rnd)
    (hfix : rnd (rnd ONE_HOUR) = rnd ONE_HOUR) (hpos : (0 : α) < rnd ONE_HOUR)
    (ε : α) (hε : 0 ≤ ε) (hrel : ∀ z : α, |rnd z - z| ≤ ε * |z|)
    (systemTime strike barrier maturity monitorFreq : α) (hf : 0 < monitorFreq)
    (hadv : rnd ONE_HOUR ≤ UOC.advance ε systemTime maturity monitorFreq)
    (hM : systemTime < maturity) :
    ∃ fuel0 : Nat, ∀ fuel : Nat, fuel0 ≤ fuel → ∃ u : UOC α,
      UOC.ctorR rnd systemTime fuel strike barrier maturity monitorFreq = some u ∧
      ∀ (i : Nat) (h : i + 2 < u.timeline.length),
        rnd ONE_HOUR ≤ u.timeline[i + 1] - u.timeline[i] := by
  have hadv0 : 0 < UOC.advance ε systemTime maturity monitorFreq := lt_of_lt_of_le hpos hadv
  have hstep := UOC.dateR_step rnd hmono hfix hpos ε hε hrel systemTime maturity
    monitorFreq hf hadv0
  obtain ⟨n, _, hgo, hstop⟩ := UOC.stop_exists rnd hmono hfix systemTime maturity monitorFreq
    (UOC.advance ε systemTime maturity monitorFreq) hadv0 (fun k _ hall => (hstep k hall).2)
  have hback := UOC.dateR_back_lt rnd hmono hfix hpos systemTime maturity monitorFreq hM n hgo
  refine ⟨n, fun fuel hfuel => ⟨_, UOC.ctorR_eq rnd systemTime strike barrier maturity
    monitorFreq n hgo hstop hback fuel hfuel, ?_⟩⟩
  intro i h
  simp only [UOC.timeline] at h ⊢
  have hlen := UOC.datesR_length rnd systemTime monitorFreq maturity n
  rw [UOC.datesR_getElem rnd systemTime monitorFreq maturity _ i (by omega),
    UOC.datesR_getElem rnd systemTime monitorFreq maturity _ (i + 1) (by omega)]
  have := (hstep i (fun j hj1 hj2 => hgo j hj1 (by omega))).2
  linarith

/-- Claim C7, amended.  In rounded arithmetic (a monotone rounding `rnd` of relative error at
most `ε` that fixes the rounded `ONE_HOUR`, positive), for every maturity with
`maturity - systemTime > ONE_HOUR` and every `monitorFreq = f > 0` with
`f - ε * (max |systemTime| |maturity| + f) > ONE_HOUR`: every pair of consecutive timeline
elements, the final pair (last monitoring date, maturity) included, is more than `ONE_HOUR`
apart, and maturity is the last element: a monitoring date whose computed distance to maturity
is not above `ONE_HOUR` is left out and maturity is appended instead.  In exact arithmetic
(`ε = 0`) the condition is `f > ONE_HOUR`. -/
theorem UOC_timeline_no_near_duplicates_rounded (rnd : α → α) (hmono : Monotone rnd)
    (hfix : rnd (rnd ONE_HOUR) = rnd ONE_HOUR) (hpos : (0 : α) < rnd ONE_HOUR)
    (ε : α) (hε : 0 ≤ ε) (hrel : ∀ z : α, |rnd z - z| ≤ ε * |z|)
    (systemTime strike barrier maturity monitorFreq : α) (hf : 0 < monitorFreq)
    (hadv : rnd ONE_HOUR < UOC.advance ε systemTime maturity monitorFreq)
    (hM : rnd ONE_HOUR < maturity - systemTime) :
    ∃ fuel0 : Nat, ∀ fuel : Nat, fuel0 ≤ fuel → ∃ u : UOC α,
      UOC.ctorR rnd systemTime fuel strike barrier maturity monitorFreq = some u ∧
      u.timeline.getLast? = some maturity ∧
      ∀ (i : Nat) (h : i + 1 < u.timeline.length),
        rnd ONE_HOUR < u.timeline[i + 1] - u.timeline[i] := by
  have hadv0 : 0 < UOC.advance ε systemTime maturity monitorFreq := lt_trans hpos hadv
  have hstep := UOC.dateR_step rnd hmono hfix hpos ε hε hrel systemTime maturity
    monitorFreq hf hadv0
  obtain ⟨n, _, hgo, hstop⟩ := UOC.stop_exists rnd hmono hfix systemTime maturity monitorFreq
    (UOC.advance ε systemTime maturity monitorFreq) hadv0 (fun k _ hall => (hstep k hall).2)
  have hM0 : systemTime < maturity := by linarith
  have hback := UOC.dateR_back_lt rnd hmono hfix hpos systemTime maturity monitorFreq hM0 n hgo
  refine ⟨n, fun fuel hfuel => ⟨_, UOC.ctorR_eq rnd systemTime strike barrier maturity
    monitorFreq n hgo hstop hback fuel hfuel, ?_, ?_⟩⟩
  · simp only [UOC.timeline, UOC.datesR_last]
  intro i h
  simp only [UOC.timeline] at h ⊢
  have hlen := UOC.datesR_length rnd systemTime monitorFreq maturity n
  have hi : i ≤ n := by omega
  rw [UOC.datesR_getElem rnd systemTime monitorFreq maturity _ i hi]
  rcases Nat.lt_or_ge i n with hlt | hge
  · rw [UOC.datesR_getElem rnd systemTime monitorFreq maturity _ (i + 1) hlt]
    have := (hstep i (fun j hj1 hj2 => hgo j hj1 (by omega))).2
    linarith
  · have hin : i = n := le_antisymm hi hge
    subst hin
    rw [UOC.datesR_getElem_last]
    rcases Nat.eq_zero_or_pos i with h0 | hpos1
    · subst h0
      exact hM
    · exact UOC.gt_of_rnd_gt rnd hmono hfix _ (hgo i hpos1 le_rfl)

end TimelineRounded

/-! ## Binary64 evaluations for the timeline -/

theorem roundDouble_ONE_HOUR :
    roundDouble (ONE_HOUR : ℚ) = 8446321389493835 / 73786976294838206464 := by
  unfold ONE_HOUR
  rw [roundDouble_of_pos _ (-14) 8446321389493835 (by norm_num) (by norm_num) (by norm_num)
    (by norm_num)]
  norm_num

theorem roundDouble_ONE_HOUR_fix :
    roundDouble (roundDouble (ONE_HOUR : ℚ)) = roundDouble ONE_HOUR :=
  roundDouble_idem _

theorem roundDouble_ONE_HOUR_pos : (0 : ℚ) < roundDouble ONE_HOUR := by
  rw [roundDouble_ONE_HOUR]
  norm_num

/-- The quarters `1/4, 2/4, ..., 5/4` are binary64 numbers. -/
theorem roundDouble_quarters (k : Nat) (h1 : 1 ≤ k) (h2 : k ≤ 5) :
    roundDouble ((k : ℚ) / 4) = k / 4 := by
  interval_cases k
  · rw [roundDouble_of_pos _ (-2) 4503599627370496 (by norm_num) (by norm_num) (by norm_num)
      (by norm_num)]
    norm_num
  · rw [roundDouble_of_pos _ (-1) 4503599627370496 (by norm_num) (by norm_num) (by norm_num)
      (by norm_num)]
    norm_num
  · rw [roundDouble_of_pos _ (-1) 6755399441055744 (by norm_num) (by norm_num) (by norm_num)
      (by norm_num)]
    norm_num
  · rw [roundDouble_of_pos _ 0 4503599627370496 (by norm_num) (by norm_num) (by norm_num)
      (by norm_num)]
    norm_num
  · rw [roundDouble_of_pos _ 0 5629499534213120 (by norm_num) (by norm_num) (by norm_num)
      (by norm_num)]
    norm_num

/-- With reference time 0 and `monitorFreq = 1/4` the first running sums in binary64 are the
exact quarters. -/
theorem UOC.dateR_quarter (k : Nat) (hk : k ≤ 5) :
    UOC.dateR roundDouble 0 (1 / 4) k = (k : ℚ) / 4 := by
  induction k with
  | zero => simp [UOC.dateR]
  | succ k ih =>
    rw [UOC.dateR, ih (by omega)]
    have := roundDouble_quarters (k + 1) (by omega) hk
    rw [show (k : ℚ) / 4 + 1 / 4 = ((k + 1 : Nat) : ℚ) / 4 by push_cast; ring]
    exact this

/-- The guaranteed advance of one binary64 addition for reference time 0, maturity 1 and
`monitorFreq = 1/4`. -/
theorem UOC.advance_quarter :
    UOC.advance (1 / 2 ^ 53) (0 : ℚ) 1 (1 / 4) = 1 / 4 - 5 / 4 / 2 ^ 53 := by
  have h1 : max |(0 : ℚ)| |(1 : ℚ)| = 1 := by
    rw [abs_zero, abs_one]
    exact max_eq_right zero_le_one
  unfold UOC.advance
  rw [h1]
  norm_num

/-- The loop condition of the binary64 run with reference time 0, maturity 1 and
`monitorFreq = 1/4` holds at the running sums number 1, 2, 3. -/
theorem UOC.dateR_quarter_go (k : Nat) (h1 : 1 ≤ k) (h2 : k ≤ 3) :
    roundDouble (1 - UOC.dateR roundDouble 0 (1 / 4) k) > roundDouble ONE_HOUR := by
  rw [UOC.dateR_quarter k (by omega), roundDouble_ONE_HOUR]
  have hq := roundDouble_quarters 1 le_rfl (by norm_num)
  have hk : (k : ℚ) ≤ 3 := by exact_mod_cast h2
  have hm := roundDouble_monotone (show ((1 : Nat) : ℚ) / 4 ≤ 1 - (k : ℚ) / 4 by
    push_cast; linarith)
  rw [hq] at hm
  have : (8446321389493835 / 73786976294838206464 : ℚ) < ((1 : Nat) : ℚ) / 4 := by norm_num
  exact lt_of_lt_of_le this hm

/-- The loop condition of that run fails at the running sum number 4. -/
theorem UOC.dateR_quarter_stop :
    ¬ (roundDouble (1 - UOC.dateR roundDouble 0 (1 / 4) 4) > roundDouble ONE_HOUR) := by
  rw [UOC.dateR_quarter 4 (by norm_num), roundDouble_ONE_HOUR,
    show (1 - ((4 : Nat) : ℚ) / 4) = 0 by norm_num, roundDouble_zero]
  norm_num

/-- The running sums and the differences to maturity of the binary64 run with reference time 1,
maturity `1126222108433715 / 2 ^ 50` and `monitorFreq = 2111580347373459 / 2 ^ 64`. -/
theorem UOC.dateR_near_duplicate :
    UOC.dateR roundDouble 1 (2111580347373459 / 18446744073709551616) 1
      = 4504115149916241 / 4503599627370496 ∧
    UOC.dateR roundDouble 1 (2111580347373459 / 18446744073709551616) 2
      = 2252315336230993 / 2251799813685248 ∧
    roundDouble ((1126222108433715 / 1125899906842624) - (4504115149916241 / 4503599627370496))
      = 773283818619 / 4503599627370496 ∧
    roundDouble ((1126222108433715 / 1125899906842624) - (2252315336230993 / 2251799813685248))
      = 128880636437 / 2251799813685248 := by
  have a1 :
      roundDouble (1 + (2111580347373459 / 18446744073709551616))
        = 4504115149916241 / 4503599627370496 := by
    rw [roundDouble_of_pos _ (0) 4504115149916241 (by norm_num) (by norm_num) (by norm_num)
      (by norm_num)]
    norm_num
  have a2 :
      roundDouble ((4504115149916241 / 4503599627370496) + (2111580347373459 / 18446744073709551616))
        = 2252315336230993 / 2251799813685248 := by
    rw [roundDouble_of_pos _ (0) 4504630672461986 (by norm_num) (by norm_num) (by norm_num)
      (by norm_num)]
    norm_num
  have c1 :
      roundDouble ((1126222108433715 / 1125899906842624) - (4504115149916241 / 4503599627370496))
        = 773283818619 / 4503599627370496 := by
    rw [roundDouble_of_pos _ (-13) 6334741042126848 (by norm_num) (by norm_num) (by norm_num)
      (by norm_num)]
    norm_num
  have c2 :
      roundDouble ((1126222108433715 / 1125899906842624) - (2252315336230993 / 2251799813685248))
        = 128880636437 / 2251799813685248 := by
    rw [roundDouble_of_pos _ (-15) 8446321389535232 (by norm_num) (by norm_num) (by norm_num)
      (by norm_num)]
    norm_num
  have d1 :
      UOC.dateR roundDouble 1 (2111580347373459 / 18446744073709551616) 1
        = 4504115149916241 / 4503599627370496 := a1
  have d2 :
      UOC.dateR roundDouble 1 (2111580347373459 / 18446744073709551616) 2
        = 2252315336230993 / 2251799813685248 := by
    show roundDouble (UOC.dateR roundDouble 1 (2111580347373459 / 18446744073709551616) 1
      + (2111580347373459 / 18446744073709551616)) = _
    rw [d1]
    exact a2
  exact ⟨d1, d2, c1, c2⟩

/-- The running sums and the differences to maturity of the binary64 run with reference time 0,
maturity 1 and `monitorFreq` the double nearest to `1/12`. -/
theorem UOC.dateR_twelfth :
    UOC.dateR roundDouble 0 (6004799503160661 / 72057594037927936) 1
      = 6004799503160661 / 72057594037927936 ∧
    UOC.dateR roundDouble 0 (6004799503160661 / 72057594037927936) 2
      = 6004799503160661 / 36028797018963968 ∧
    UOC.dateR roundDouble 0 (6004799503160661 / 72057594037927936) 3 = 1 / 4 ∧
    UOC.dateR roundDouble 0 (6004799503160661 / 72057594037927936) 4
      = 6004799503160661 / 18014398509481984 ∧
    UOC.dateR roundDouble 0 (6004799503160661 / 72057594037927936) 5
      = 3752999689475413 / 9007199254740992 ∧
    UOC.dateR roundDouble 0 (6004799503160661 / 72057594037927936) 6
      = 9007199254740991 / 18014398509481984 ∧
    UOC.dateR roundDouble 0 (6004799503160661 / 72057594037927936) 7
      = 2627099782632789 / 4503599627370496 ∧
    UOC.dateR roundDouble 0 (6004799503160661 / 72057594037927936) 8
      = 6004799503160661 / 9007199254740992 ∧
    UOC.dateR roundDouble 0 (6004799503160661 / 72057594037927936) 9 = 3 / 4 ∧
    UOC.dateR roundDouble 0 (6004799503160661 / 72057594037927936) 10
      = 7505999378950827 / 9007199254740992 ∧
    UOC.dateR roundDouble 0 (6004799503160661 / 72057594037927936) 11
      = 4128299658422955 / 4503599627370496 ∧
    UOC.dateR roundDouble 0 (6004799503160661 / 72057594037927936) 12 = 1 ∧
    roundDouble (1 - (6004799503160661 / 72057594037927936)) = 8256599316845909 / 9007199254740992 ∧
    roundDouble (1 - (6004799503160661 / 36028797018963968)) = 7505999378950827 / 9007199254740992 ∧
    roundDouble (1 - (1 / 4)) = 3 / 4 ∧
    roundDouble (1 - (6004799503160661 / 18014398509481984)) = 3002399751580331 / 4503599627370496 ∧
    roundDouble (1 - (3752999689475413 / 9007199254740992)) = 5254199565265579 / 9007199254740992 ∧
    roundDouble (1 - (9007199254740991 / 18014398509481984)) = 1 / 2 ∧
    roundDouble (1 - (2627099782632789 / 4503599627370496)) = 1876499844737707 / 4503599627370496 ∧
    roundDouble (1 - (6004799503160661 / 9007199254740992)) = 3002399751580331 / 9007199254740992 ∧
    roundDouble (1 - (3 / 4)) = 1 / 4 ∧
    roundDouble (1 - (7505999378950827 / 9007199254740992)) = 1501199875790165 / 9007199254740992 ∧
    roundDouble (1 - (4128299658422955 / 4503599627370496)) = 375299968947541 / 4503599627370496 ∧
    roundDouble (1 - 1) = 0 := by
  have a1 :
      roundDouble (0 + (6004799503160661 / 72057594037927936))
        = 6004799503160661 / 72057594037927936 := by
    rw [roundDouble_of_pos _ (-4) 6004799503160661 (by norm_num) (by norm_num) (by norm_num)
      (by norm_num)]
    norm_num
  have a2 :
      roundDouble ((6004799503160661 / 72057594037927936) + (6004799503160661 / 72057594037927936))
        = 6004799503160661 / 36028797018963968 := by
    rw [roundDouble_of_pos _ (-3) 6004799503160661 (by norm_num) (by norm_num) (by norm_num)
      (by norm_num)]
    norm_num
  have a3 :
      roundDouble ((6004799503160661 / 36028797018963968) + (6004799503160661 / 72057594037927936))
        = 1 / 4 := by
    rw [roundDouble_of_pos_tie _ (-3) 9007199254740991 9007199254740992 (by norm_num) (by norm_num)
      (by norm_num) (Or.inr (by norm_num)) (by norm_num)]
    norm_num
  have a4 :
      roundDouble ((1 / 4) + (6004799503160661 / 72057594037927936))
        = 6004799503160661 / 18014398509481984 := by
    rw [roundDouble_of_pos _ (-2) 6004799503160661 (by norm_num) (by norm_num) (by norm_num)
      (by norm_num)]
    norm_num
  have a5 :
      roundDouble ((6004799503160661 / 18014398509481984) + (6004799503160661 / 72057594037927936))
        = 3752999689475413 / 9007199254740992 := by
    rw [roundDouble_of_pos _ (-2) 7505999378950826 (by norm_num) (by norm_num) (by norm_num)
      (by norm_num)]
    norm_num
  have a6 :
      roundDouble ((3752999689475413 / 9007199254740992) + (6004799503160661 / 72057594037927936))
        = 9007199254740991 / 18014398509481984 := by
    rw [roundDouble_of_pos _ (-2) 9007199254740991 (by norm_num) (by norm_num) (by norm_num)
      (by norm_num)]
    norm_num
  have a7 :
      roundDouble ((9007199254740991 / 18014398509481984) + (6004799503160661 / 72057594037927936))
        = 2627099782632789 / 4503599627370496 := by
    rw [roundDouble_of_pos _ (-1) 5254199565265578 (by norm_num) (by norm_num) (by norm_num)
      (by norm_num)]
    norm_num
  have a8 :
      roundDouble ((2627099782632789 / 4503599627370496) + (6004799503160661 / 72057594037927936))
        = 6004799503160661 / 9007199254740992 := by
    rw [roundDouble_of_pos _ (-1) 6004799503160661 (by norm_num) (by norm_num) (by norm_num)
      (by norm_num)]
    norm_num
  have a9 :
      roundDouble ((6004799503160661 / 9007199254740992) + (6004799503160661 / 72057594037927936))
        = 3 / 4 := by
    rw [roundDouble_of_pos _ (-1) 6755399441055744 (by norm_num) (by norm_num) (by norm_num)
      (by norm_num)]
    norm_num
  have a10 :
      roundDouble ((3 / 4) + (6004799503160661 / 72057594037927936))
        = 7505999378950827 / 9007199254740992 := by
    rw [roundDouble_of_pos _ (-1) 7505999378950827 (by norm_num) (by norm_num) (by norm_num)
      (by norm_num)]
    norm_num
  have a11 :
      roundDouble ((7505999378950827 / 9007199254740992) + (6004799503160661 / 72057594037927936))
        = 4128299658422955 / 4503599627370496 := by
    rw [roundDouble_of_pos _ (-1) 8256599316845910 (by norm_num) (by norm_num) (by norm_num)
      (by norm_num)]
    norm_num
  have a12 :
      roundDouble ((4128299658422955 / 4503599627370496) + (6004799503160661 / 72057594037927936))
        = 1 := by
    rw [roundDouble_of_pos _ (0) 4503599627370496 (by norm_num) (by norm_num) (by norm_num)
      (by norm_num)]
    norm_num
  have c1 :
      roundDouble (1 - (6004799503160661 / 72057594037927936))
        = 8256599316845909 / 9007199254740992 := by
    rw [roundDouble_of_pos _ (-1) 8256599316845909 (by norm_num) (by norm_num) (by norm_num)
      (by norm_num)]
    norm_num
  have c2 :
      roundDouble (1 - (6004799503160661 / 36028797018963968))
        = 7505999378950827 / 9007199254740992 := by
    rw [roundDouble_of_pos _ (-1) 7505999378950827 (by norm_num) (by norm_num) (by norm_num)
      (by norm_num)]
    norm_num
  have c3 : roundDouble (1 - (1 / 4)) = 3 / 4 := by
    rw [roundDouble_of_pos _ (-1) 6755399441055744 (by norm_num) (by norm_num) (by norm_num)
      (by norm_num)]
    norm_num
  have c4 :
      roundDouble (1 - (6004799503160661 / 18014398509481984))
        = 3002399751580331 / 4503599627370496 := by
    rw [roundDouble_of_pos_tie _ (-1) 6004799503160661 6004799503160662 (by norm_num) (by norm_num)
      (by norm_num) (Or.inr (by norm_num)) (by norm_num)]
    norm_num
  have c5 :
      roundDouble (1 - (3752999689475413 / 9007199254740992))
        = 5254199565265579 / 9007199254740992 := by
    rw [roundDouble_of_pos _ (-1) 5254199565265579 (by norm_num) (by norm_num) (by norm_num)
      (by norm_num)]
    norm_num
  have c6 : roundDouble (1 - (9007199254740991 / 18014398509481984)) = 1 / 2 := by
    rw [roundDouble_of_pos_tie _ (-1) 4503599627370496 4503599627370496 (by norm_num) (by norm_num)
      (by norm_num) (Or.inl rfl) (by norm_num)]
    norm_num
  have c7 :
      roundDouble (1 - (2627099782632789 / 4503599627370496))
        = 1876499844737707 / 4503599627370496 := by
    rw [roundDouble_of_pos _ (-2) 7505999378950828 (by norm_num) (by norm_num) (by norm_num)
      (by norm_num)]
    norm_num
  have c8 :
      roundDouble (1 - (6004799503160661 / 9007199254740992))
        = 3002399751580331 / 9007199254740992 := by
    rw [roundDouble_of_pos _ (-2) 6004799503160662 (by norm_num) (by norm_num) (by norm_num)
      (by norm_num)]
    norm_num
  have c9 : roundDouble (1 - (3 / 4)) = 1 / 4 := by
    rw [roundDouble_of_pos _ (-2) 4503599627370496 (by norm_num) (by norm_num) (by norm_num)
      (by norm_num)]
    norm_num
  have c10 :
      roundDouble (1 - (7505999378950827 / 9007199254740992))
        = 1501199875790165 / 9007199254740992 := by
    rw [roundDouble_of_pos _ (-3) 6004799503160660 (by norm_num) (by norm_num) (by norm_num)
      (by norm_num)]
    norm_num
  have c11 :
      roundDouble (1 - (4128299658422955 / 4503599627370496))
        = 375299968947541 / 4503599627370496 := by
    rw [roundDouble_of_pos _ (-4) 6004799503160656 (by norm_num) (by norm_num) (by norm_num)
      (by norm_num)]
    norm_num
  have c12 : roundDouble (1 - 1) = 0 := by
    rw [show (1 - 1 : ℚ) = 0 by norm_num, roundDouble_zero]
  have d1 :
      UOC.dateR roundDouble 0 (6004799503160661 / 72057594037927936) 1
        = 6004799503160661 / 72057594037927936 := a1
  have d2 :
      UOC.dateR roundDouble 0 (6004799503160661 / 72057594037927936) 2
        = 6004799503160661 / 36028797018963968 := by
    show roundDouble (UOC.dateR roundDouble 0 (6004799503160661 / 72057594037927936) 1
      + (6004799503160661 / 72057594037927936)) = _
    rw [d1]
    exact a2
  have d3 : UOC.dateR roundDouble 0 (6004799503160661 / 72057594037927936) 3 = 1 / 4 := by
    show roundDouble (UOC.dateR roundDouble 0 (6004799503160661 / 72057594037927936) 2
      + (6004799503160661 / 72057594037927936)) = _
    rw [d2]
    exact a3
  have d4 :
      UOC.dateR roundDouble 0 (6004799503160661 / 72057594037927936) 4
        = 6004799503160661 / 18014398509481984 := by
    show roundDouble (UOC.dateR roundDouble 0 (6004799503160661 / 72057594037927936) 3
      + (6004799503160661 / 72057594037927936)) = _
    rw [d3]
    exact a4
  have d5 :
      UOC.dateR roundDouble 0 (6004799503160661 / 72057594037927936) 5
        = 3752999689475413 / 9007199254740992 := by
    show roundDouble (UOC.dateR roundDouble 0 (6004799503160661 / 72057594037927936) 4
      + (6004799503160661 / 72057594037927936)) = _
    rw [d4]
    exact a5
  have d6 :
      UOC.dateR roundDouble 0 (6004799503160661 / 72057594037927936) 6
        = 9007199254740991 / 18014398509481984 := by
    show roundDouble (UOC.dateR roundDouble 0 (6004799503160661 / 72057594037927936) 5
      + (6004799503160661 / 72057594037927936)) = _
    rw [d5]
    exact a6
  have d7 :
      UOC.dateR roundDouble 0 (6004799503160661 / 72057594037927936) 7
        = 2627099782632789 / 4503599627370496 := by
    show roundDouble (UOC.dateR roundDouble 0 (6004799503160661 / 72057594037927936) 6
      + (6004799503160661 / 72057594037927936)) = _
    rw [d6]
    exact a7
  have d8 :
      UOC.dateR roundDouble 0 (6004799503160661 / 72057594037927936) 8
        = 6004799503160661 / 9007199254740992 := by
    show roundDouble (UOC.dateR roundDouble 0 (6004799503160661 / 72057594037927936) 7
      + (6004799503160661 / 72057594037927936)) = _
    rw [d7]
    exact a8
  have d9 : UOC.dateR roundDouble 0 (6004799503160661 / 72057594037927936) 9 = 3 / 4 := by
    show roundDouble (UOC.dateR roundDouble 0 (6004799503160661 / 72057594037927936) 8
      + (6004799503160661 / 72057594037927936)) = _
    rw [d8]
    exact a9
  have d10 :
      UOC.dateR roundDouble 0 (6004799503160661 / 72057594037927936) 10
        = 7505999378950827 / 9007199254740992 := by
    show roundDouble (UOC.dateR roundDouble 0 (6004799503160661 / 72057594037927936) 9
      + (6004799503160661 / 72057594037927936)) = _
    rw [d9]
    exact a10
  have d11 :
      UOC.dateR roundDouble 0 (6004799503160661 / 72057594037927936) 11
        = 4128299658422955 / 4503599627370496 := by
    show roundDouble (UOC.dateR roundDouble 0 (6004799503160661 / 72057594037927936) 10
      + (6004799503160661 / 72057594037927936)) = _
    rw [d10]
    exact a11
  have d12 : UOC.dateR roundDouble 0 (6004799503160661 / 72057594037927936) 12 = 1 := by
    show roundDouble (UOC.dateR roundDouble 0 (6004799503160661 / 72057594037927936) 11
      + (6004799503160661 / 72057594037927936)) = _
    rw [d11]
    exact a12
  exact ⟨d1, d2, d3, d4, d5, d6, d7, d8, d9, d10, d11, d12,
    c1, c2, c3, c4, c5, c6, c7, c8, c9, c10, c11, c12⟩

/-! ## Timeline claims in binary64: counterexamples and witnesses -/

/-- Witness of the amended C6 in binary64 (`ε = 2 ^ (-53)`): reference time 0, maturity 1,
`monitorFreq = 1/4`. -/
theorem UOC_timeline_min_spacing_rounded_witness :
    ∃ fuel0 : Nat, ∀ fuel : Nat, fuel0 ≤ fuel → ∃ u : UOC ℚ,
      UOC.ctorR roundDouble 0 fuel 100 120 1 (1 / 4) = some u ∧
      ∀ (i : Nat) (h : i + 2 < u.timeline.length),
        roundDouble ONE_HOUR ≤ u.timeline[i + 1] - u.timeline[i] :=
  UOC_timeline_min_spacing_rounded roundDouble roundDouble_monotone roundDouble_ONE_HOUR_fix
    roundDouble_ONE_HOUR_pos (1 / 2 ^ 53) (by norm_num) roundDouble_rel 0 100 120 1 (1 / 4)
    (by norm_num) (by rw [UOC.advance_quarter, roundDouble_ONE_HOUR]; norm_num) (by norm_num)

/-- Counterexample to C7 as stated, in binary64.  Reference time 1, maturity
`1126222108433715 / 2 ^ 50` (about 1.000286) and `monitorFreq = 2111580347373459 / 2 ^ 64`, the
double next above the double `ONE_HOUR`: both are doubles, `monitorFreq > ONE_HOUR` and
`maturity - systemTime > ONE_HOUR`, the timeline is `1, 4504115149916241 / 2 ^ 52, maturity`,
and its first two elements are less than `ONE_HOUR` apart (as exact numbers, and against the
exact decimal `0.000114469` as well as against its double). -/
theorem UOC_timeline_no_near_duplicates_counterexample :
    roundDouble (2111580347373459 / 18446744073709551616) = 2111580347373459 / 18446744073709551616 ∧
    roundDouble (1126222108433715 / 1125899906842624) = 1126222108433715 / 1125899906842624 ∧
    roundDouble (ONE_HOUR : ℚ) < 2111580347373459 / 18446744073709551616 ∧
    (ONE_HOUR : ℚ) < 2111580347373459 / 18446744073709551616 ∧
    roundDouble (ONE_HOUR : ℚ) < roundDouble (1126222108433715 / 1125899906842624 - 1) ∧
    ∃ u : UOC ℚ,
      UOC.ctorR roundDouble 1 1 100 120 (1126222108433715 / 1125899906842624)
        (2111580347373459 / 18446744073709551616) = some u ∧
      u.timeline = [1, 4504115149916241 / 4503599627370496, 1126222108433715 / 1125899906842624] ∧
      ∃ (i : Nat) (h : i + 1 < u.timeline.length),
        u.timeline[i + 1] - u.timeline[i] < roundDouble ONE_HOUR ∧
        u.timeline[i + 1] - u.timeline[i] < ONE_HOUR := by
  obtain ⟨d1, d2, c1, c2⟩ := UOC.dateR_near_duplicate
  have hf : roundDouble (2111580347373459 / 18446744073709551616)
      = 2111580347373459 / 18446744073709551616 := by
    rw [roundDouble_of_pos _ (-14) 8446321389493836 (by norm_num) (by norm_num) (by norm_num)
      (by norm_num)]
    norm_num
  have hMr : roundDouble (1126222108433715 / 1125899906842624)
      = 1126222108433715 / 1125899906842624 := by
    rw [roundDouble_of_pos _ 0 4504888433734860 (by norm_num) (by norm_num) (by norm_num)
      (by norm_num)]
    norm_num
  have hMs : roundDouble (1126222108433715 / 1125899906842624 - 1)
      = 322201591091 / 1125899906842624 := by
    rw [roundDouble_of_pos _ (-12) 5278950868434944 (by norm_num) (by norm_num) (by norm_num)
      (by norm_num)]
    norm_num
  have hrun := UOC.ctorR_eq roundDouble 1 100 120 (1126222108433715 / 1125899906842624)
    (2111580347373459 / 18446744073709551616) 1
    (by
      intro k h1 h2
      have hk : k = 1 := le_antisymm h2 h1
      subst hk
      rw [d1, c1, roundDouble_ONE_HOUR]
      norm_num)
    (by
      rw [d2, c2, roundDouble_ONE_HOUR]
      norm_num)
    (by
      rw [d1]
      norm_num)
    1 le_rfl
  have htl : (List.range (1 + 1)).map
      (UOC.dateR roundDouble 1 (2111580347373459 / 18446744073709551616))
        ++ [1126222108433715 / 1125899906842624]
      = [1, 4504115149916241 / 4503599627370496, 1126222108433715 / 1125899906842624] := by
    simp only [List.range_succ, List.range_zero, List.nil_append, List.map_append,
      List.map_cons, List.map_nil, List.cons_append, d1]
    rfl
  refine ⟨hf, hMr, by rw [roundDouble_ONE_HOUR]; norm_num, by norm_num [ONE_HOUR],
    by rw [roundDouble_ONE_HOUR, hMs]; norm_num, _, hrun, ?_, 0, ?_, ?_, ?_⟩
  · exact htl
  · simp [UOC.timeline]
  · simp only [UOC.timeline, htl, List.getElem_cons_succ, List.getElem_cons_zero,
      roundDouble_ONE_HOUR]
    norm_num
  · simp only [UOC.timeline, htl, List.getElem_cons_succ, List.getElem_cons_zero, ONE_HOUR]
    norm_num

/-- Witness of the amended C7 in binary64 (`ε = 2 ^ (-53)`): reference time 0, maturity 1,
`monitorFreq = 1/4`. -/
theorem UOC_timeline_no_near_duplicates_rounded_witness :
    ∃ fuel0 : Nat, ∀ fuel : Nat, fuel0 ≤ fuel → ∃ u : UOC ℚ,
      UOC.ctorR roundDouble 0 fuel 100 120 1 (1 / 4) = some u ∧
      u.timeline.getLast? = some 1 ∧
      ∀ (i : Nat) (h : i + 1 < u.timeline.length),
        roundDouble ONE_HOUR < u.timeline[i + 1] - u.timeline[i] :=
  UOC_timeline_no_near_duplicates_rounded roundDouble roundDouble_monotone
    roundDouble_ONE_HOUR_fix roundDouble_ONE_HOUR_pos (1 / 2 ^ 53) (by norm_num) roundDouble_rel
    0 100 120 1 (1 / 4) (by norm_num)
    (by rw [UOC.advance_quarter, roundDouble_ONE_HOUR]; norm_num)
    (by rw [roundDouble_ONE_HOUR]; norm_num)

/-- Counterexample to C15 as stated, in binary64: the witness of the claim itself.  Reference
time 0, maturity 1 and `monitorFreq` the double nearest to `1/12`: the timeline has the 13
entries of the claim, but they are the running double sums, and the seventh,
`9007199254740991 / 2 ^ 54 = 0.49999999999999994`, is not `0 + 6 * monitorFreq`; the timeline
is not `[s, s + f, ..., s + 11 * f, M]`. -/
theorem UOC_timeline_exact_content_counterexample :
    roundDouble (1 / 12) = 6004799503160661 / 72057594037927936 ∧
    ∃ u : UOC ℚ,
      UOC.ctorR roundDouble 0 11 100 120 1 (6004799503160661 / 72057594037927936) = some u ∧
      u.timeline = [0, 6004799503160661 / 72057594037927936,
        6004799503160661 / 36028797018963968, 1 / 4, 6004799503160661 / 18014398509481984,
        3752999689475413 / 9007199254740992, 9007199254740991 / 18014398509481984,
        2627099782632789 / 4503599627370496, 6004799503160661 / 9007199254740992, 3 / 4,
        7505999378950827 / 9007199254740992, 4128299658422955 / 4503599627370496, 1] ∧
      u.timeline ≠ (List.range 12).map
        (fun k : Nat => (0 : ℚ) + k * (6004799503160661 / 72057594037927936)) ++ [1] := by
  obtain ⟨d1, d2, d3, d4, d5, d6, d7, d8, d9, d10, d11, d12,
    c1, c2, c3, c4, c5, c6, c7, c8, c9, c10, c11, c12⟩ := UOC.dateR_twelfth
  have hf : roundDouble (1 / 12) = 6004799503160661 / 72057594037927936 := by
    rw [roundDouble_of_pos _ (-4) 6004799503160661 (by norm_num) (by norm_num) (by norm_num)
      (by norm_num)]
    norm_num
  have hrun := UOC.ctorR_eq roundDouble 0 100 120 1 (6004799503160661 / 72057594037927936) 11
    (by
      intro k h1 h2
      interval_cases k
      · rw [d1, c1, roundDouble_ONE_HOUR]; norm_num
      · rw [d2, c2, roundDouble_ONE_HOUR]; norm_num
      · rw [d3, c3, roundDouble_ONE_HOUR]; norm_num
      · rw [d4, c4, roundDouble_ONE_HOUR]; norm_num
      · rw [d5, c5, roundDouble_ONE_HOUR]; norm_num
      · rw [d6, c6, roundDouble_ONE_HOUR]; norm_num
      · rw [d7, c7, roundDouble_ONE_HOUR]; norm_num
      · rw [d8, c8, roundDouble_ONE_HOUR]; norm_num
      · rw [d9, c9, roundDouble_ONE_HOUR]; norm_num
      · rw [d10, c10, roundDouble_ONE_HOUR]; norm_num
      · rw [d11, c11, roundDouble_ONE_HOUR]; norm_num)
    (by
      rw [d12, c12, roundDouble_ONE_HOUR]
      norm_num)
    (by
      rw [d11]
      norm_num)
    11 le_rfl
  have htl : (List.range (11 + 1)).map
      (UOC.dateR roundDouble 0 (6004799503160661 / 72057594037927936)) ++ [1]
      = [0, 6004799503160661 / 72057594037927936,
        6004799503160661 / 36028797018963968, 1 / 4, 6004799503160661 / 18014398509481984,
        3752999689475413 / 9007199254740992, 9007199254740991 / 18014398509481984,
        2627099782632789 / 4503599627370496, 6004799503160661 / 9007199254740992, 3 / 4,
        7505999378950827 / 9007199254740992, 4128299658422955 / 4503599627370496, 1] := by
    simp only [List.range_succ, List.range_zero, List.nil_append, List.map_append,
      List.map_cons, List.map_nil, List.cons_append, d1, d2, d3, d4, d5, d6, d7, d8, d9, d10,
      d11]
    rfl
  refine ⟨hf, _, hrun, htl, ?_⟩
  simp only [UOC.timeline]
  rw [htl]
  norm_num [List.range_succ]

/-- Witness of the amended C15 in binary64 (`ε = 2 ^ (-53)`): reference time 0, maturity 1,
`monitorFreq = 1/4` gives the five dates `0, 1/4, 1/2, 3/4, 1`. -/
theorem UOC_timeline_rounded_content_witness :
    ∃ fuel0 : Nat, ∀ fuel : Nat, fuel0 ≤ fuel → ∃ u : UOC ℚ,
      UOC.ctorR roundDouble 0 fuel 100 120 1 (1 / 4) = some u ∧
      u.timeline = [0, 1 / 4, 1 / 2, 3 / 4, 1] := by
  obtain ⟨n, hgo, hstop, ⟨fuel0, hrun⟩, _⟩ := UOC_timeline_rounded_content roundDouble
    roundDouble_monotone roundDouble_ONE_HOUR_fix roundDouble_ONE_HOUR_pos (1 / 2 ^ 53)
    (by norm_num) roundDouble_rel 0 100 120 1 (1 / 4) (by norm_num)
    (by rw [UOC.advance_quarter]; norm_num) (by norm_num)
  have h3 : 3 ≤ n := by
    by_contra hc
    exact hstop (UOC.dateR_quarter_go (n + 1) (by omega) (by omega))
  have h4 : n ≤ 3 := by
    by_contra hc
    exact UOC.dateR_quarter_stop (hgo 4 (by norm_num) (by omega))
  have hn : n = 3 := le_antisymm h4 h3
  subst hn
  refine ⟨fuel0, fun fuel hfuel => ?_⟩
  obtain ⟨u, hu, htl⟩ := hrun fuel hfuel
  refine ⟨u, hu, ?_⟩
  rw [htl]
  simp only [List.range_succ, List.range_zero, List.nil_append, List.map_append,
    List.map_cons, List.map_nil, List.cons_append, UOC.dateR_quarter 1 (by norm_num),
    UOC.dateR_quarter 2 (by norm_num), UOC.dateR_quarter 3 (by norm_num),
    UOC.dateR_quarter 0 (by norm_num)]
  norm_num

/-- Counterexample to C18 as stated, in binary64.  Reference time `2 ^ 53`, maturity
`2 ^ 53 + 8` and `monitorFreq = 1/4 > 0`: the sum `2 ^ 53 + 1/4` rounds to `2 ^ 53`, the running
time never moves while `maturity - t = 8 > ONE_HOUR`, and the loop does not end: for every
amount of fuel the loop and the constructor return `none`. -/
theorem UOC_ctor_terminates_counterexample :
    (0 : ℚ) < 1 / 4 ∧ roundDouble (9007199254740992 + 1 / 4) = 9007199254740992 ∧
    (∀ fuel : Nat, UOC.whileLoopR roundDouble 9007199254741000 (1 / 4) fuel
      (roundDouble (9007199254740992 + 1 / 4)) [9007199254740992] = none) ∧
    ∀ fuel : Nat, UOC.ctorR roundDouble 9007199254740992 fuel 100 120 9007199254741000 (1 / 4)
      = none := by
  have hadd : roundDouble (9007199254740992 + 1 / 4) = 9007199254740992 := by
    rw [roundDouble_of_pos _ 53 4503599627370496 (by norm_num) (by norm_num) (by norm_num)
      (by norm_num)]
    norm_num
  have hc : roundDouble (9007199254741000 - 9007199254740992) > roundDouble (ONE_HOUR : ℚ) := by
    rw [roundDouble_ONE_HOUR, roundDouble_of_pos _ 3 4503599627370496 (by norm_num)
      (by norm_num) (by norm_num) (by norm_num)]
    norm_num
  have hloop := UOC.whileLoopR_stuck roundDouble 9007199254741000 (1 / 4) 9007199254740992
    hadd hc
  refine ⟨by norm_num, hadd, fun fuel => ?_, fun fuel => ?_⟩
  · rw [hadd]
    exact hloop fuel _
  · simp only [UOC.ctorR, hadd, hloop fuel]

/-- Witness of the amended C18 in binary64 (`ε = 2 ^ (-53)`): reference time 0, maturity 1,
`monitorFreq = 1/4` and fuel 4 (the bound is `⌈3.99...⌉₊ = 4`). -/
theorem UOC_ctor_terminates_rounded_witness :
    (∃ tl : List ℚ,
      UOC.whileLoopR roundDouble 1 (1 / 4) 4 (roundDouble (0 + 1 / 4)) [0] = some tl ∧
      tl.length - 1 ≤ ⌈((1 : ℚ) - 0 - roundDouble ONE_HOUR)
        / UOC.advance (1 / 2 ^ 53) 0 1 (1 / 4)⌉₊) ∧
    ∃ u : UOC ℚ, UOC.ctorR roundDouble 0 4 100 120 1 (1 / 4) = some u :=
  UOC_ctor_terminates_rounded roundDouble roundDouble_monotone roundDouble_ONE_HOUR_fix
    roundDouble_ONE_HOUR_pos (1 / 2 ^ 53) (by norm_num) roundDouble_rel 0 100 120 1 (1 / 4)
    (by norm_num) (by rw [UOC.advance_quarter]; norm_num) 4
    (Nat.ceil_le.mpr (by rw [UOC.advance_quarter, roundDouble_ONE_HOUR]; norm_num))

/-! ## The inverse Gaussian distribution function in rounded arithmetic -/

section InverseRounded

variable {α : Type} [LinearOrderedField α]

theorem invNormalCdfR_eq_body (rnd : α → α) (log : α → α) (p : α) :
    invNormalCdfR rnd log p
      = invNormalCdfBodyR rnd log (decide (p > 0.5)) (if p > 0.5 then rnd (1.0 - p) else p) := by
  simp only [invNormalCdfR, invNormalCdfBodyR, decide_eq_true_eq]

/-- The two values of `sup` give opposite results at the same `up`. -/
theorem invNormalCdfBodyR_true (rnd : α → α) (log : α → α) (up : α) :
    invNormalCdfBodyR rnd log true up = -invNormalCdfBodyR rnd log false up := by
  simp only [invNormalCdfBodyR, if_true, Bool.false_eq_true, if_false]
  split_ifs
  · rfl
  · rw [neg_neg]

/-- At `up = 0.5` the central regime returns 0. -/
theorem invNormalCdfBodyR_half (rnd : α → α) (log : α → α) (h0 : rnd 0 = 0)
    (h42 : 0 < rnd 0.42) : invNormalCdfBodyR rnd log false 0.5 = 0 := by
  have hx : rnd ((0.5 : α) - 0.5) = 0 := by rw [sub_self, h0]
  simp only [invNormalCdfBodyR, hx, abs_zero, h42, if_true, zero_mul, zero_div, h0,
    Bool.false_eq_true, if_false]

/-- Claim C12, amended.  In rounded arithmetic (every `double` operation of `invNormalCdf`
followed by `rnd`, a monotone rounding with `rnd 0 = 0`, `rnd 0.5 = 0.5` and `rnd 0.42 > 0`),
for every `p` with `p ≥ 0.5`, or with `p < 0.5` and `rnd (1 - rnd (1 - p)) = p` (the difference
`1 - p` is recovered by the second subtraction; in exact arithmetic, every `p`):
`invNormalCdf (rnd (1 - p)) = -invNormalCdf p`, in the central regime, in the tail regime and at
`p = 0.5`, and for every function `log`. -/
theorem invNormalCdf_symmetry_rounded (rnd : α → α) (hmono : Monotone rnd) (h0 : rnd 0 = 0)
    (hhalf : rnd 0.5 = 0.5) (h42 : 0 < rnd 0.42) (log : α → α) (p : α)
    (hp : 0.5 ≤ p ∨ rnd (1 - rnd (1 - p)) = p) :
    invNormalCdfR rnd log (rnd (1 - p)) = -invNormalCdfR rnd log p := by
  rw [invNormalCdfR_eq_body, invNormalCdfR_eq_body]
  rcases lt_trichotomy p 0.5 with hlt | heq | hgt
  · have hrt : rnd (1 - rnd (1 - p)) = p := by
      rcases hp with h | h
      · exact absurd hlt (not_lt.mpr h)
      · exact h
    have h1 : (0.5 : α) ≤ rnd (1 - p) := by
      have := hmono (show (0.5 : α) ≤ 1 - p by norm_num at hlt ⊢; linarith)
      rwa [hhalf] at this
    have h2 : rnd (1 - p) ≠ 0.5 := by
      intro hc
      rw [hc] at hrt
      have e : (1 : α) - 0.5 = 0.5 := by norm_num
      rw [e, hhalf] at hrt
      exact absurd hrt.symm (ne_of_lt hlt)
    have h3 : rnd (1 - p) > 0.5 := lt_of_le_of_ne h1 (Ne.symm h2)
    have h4 : ¬ p > 0.5 := not_lt.mpr hlt.le
    have e1 : (1.0 : α) = 1 := by norm_num
    simp only [h3, h4, decide_True, decide_False, if_true, if_false, e1, hrt]
    exact invNormalCdfBodyR_true rnd log p
  · have e : (1 : α) - 0.5 = 0.5 := by norm_num
    have h4 : ¬ (0.5 : α) > 0.5 := lt_irrefl _
    rw [heq, e, hhalf]
    simp only [h4, decide_False, if_false]
    rw [invNormalCdfBodyR_half rnd log h0 h42]
    simp
  · have h1 : rnd (1 - p) ≤ 0.5 := by
      have := hmono (show 1 - p ≤ (0.5 : α) by norm_num at hgt ⊢; linarith)
      rwa [hhalf] at this
    have h3 : ¬ rnd (1 - p) > 0.5 := not_lt.mpr h1
    have h4 : p > 0.5 := hgt
    have e1 : (1.0 : α) = 1 := by norm_num
    simp only [h3, h4, decide_True, decide_False, if_true, if_false, e1]
    rw [invNormalCdfBodyR_true rnd log (rnd (1 - p))]
    simp

end InverseRounded

/-- The central regime in binary64 at `up = 1 - 0.7 = 0.30000000000000004` with `sup` set. -/
theorem invNormalCdfBodyR_upper (log : ℚ → ℚ) :
    invNormalCdfBodyR roundDouble log true (1351079888211149 / 4503599627370496)
      = 4723379900031395 / 9007199254740992 := by
  have h1 : roundDouble (25.44106049637) = 895127738838767 / 35184372088832 := by
    rw [roundDouble_of_pos _ (4) 7161021910710136 (by norm_num) (by norm_num) (by norm_num)
      (by norm_num)]
    norm_num
  have h2 : roundDouble (41.39119773534) = 1456323302322623 / 35184372088832 := by
    rw [roundDouble_of_pos _ (5) 5825293209290492 (by norm_num) (by norm_num) (by norm_num)
      (by norm_num)]
    norm_num
  have h3 : roundDouble (18.61500062529) = 2619828433736175 / 140737488355328 := by
    rw [roundDouble_of_pos _ (4) 5239656867472350 (by norm_num) (by norm_num) (by norm_num)
      (by norm_num)]
    norm_num
  have h4 : roundDouble (2.50662823884) = 5644425001198093 / 2251799813685248 := by
    rw [roundDouble_of_pos _ (1) 5644425001198093 (by norm_num) (by norm_num) (by norm_num)
      (by norm_num)]
    norm_num
  have h5 : roundDouble (3.13082909833) = 7050000380299847 / 2251799813685248 := by
    rw [roundDouble_of_pos _ (1) 7050000380299847 (by norm_num) (by norm_num) (by norm_num)
      (by norm_num)]
    norm_num
  have h6 : roundDouble (21.06224101826) = 5928493800088957 / 281474976710656 := by
    rw [roundDouble_of_pos _ (4) 5928493800088957 (by norm_num) (by norm_num) (by norm_num)
      (by norm_num)]
    norm_num
  have h7 : roundDouble (23.08336743743) = 1624347577963531 / 70368744177664 := by
    rw [roundDouble_of_pos _ (4) 6497390311854124 (by norm_num) (by norm_num) (by norm_num)
      (by norm_num)]
    norm_num
  have h8 : roundDouble (8.47351093090) = 4770162583865133 / 562949953421312 := by
    rw [roundDouble_of_pos _ (3) 4770162583865133 (by norm_num) (by norm_num) (by norm_num)
      (by norm_num)]
    norm_num
  have h9 : roundDouble (0.42) = 7566047373982433 / 18014398509481984 := by
    rw [roundDouble_of_pos _ (-2) 7566047373982433 (by norm_num) (by norm_num) (by norm_num)
      (by norm_num)]
    norm_num
  have h10 :
      roundDouble ((1351079888211149 / 4503599627370496) - 0.5)
        = -(900719925474099 / 4503599627370496) := by
    rw [roundDouble_of_neg _ (-3) 7205759403792792 (by norm_num) (by norm_num) (by norm_num)
      (by norm_num)]
    norm_num
  have h11 :
      roundDouble ((-(900719925474099 / 4503599627370496)) * (-(900719925474099 / 4503599627370496)))
        = 720575940379279 / 18014398509481984 := by
    rw [roundDouble_of_pos _ (-5) 5764607523034232 (by norm_num) (by norm_num) (by norm_num)
      (by norm_num)]
    norm_num
  have h12 :
      roundDouble ((-(895127738838767 / 35184372088832)) * (720575940379279 / 18014398509481984))
        = -(4583054022854485 / 4503599627370496) := by
    rw [roundDouble_of_neg _ (0) 4583054022854485 (by norm_num) (by norm_num) (by norm_num)
      (by norm_num)]
    norm_num
  have h13 :
      roundDouble ((-(4583054022854485 / 4503599627370496)) + (1456323302322623 / 35184372088832))
        = 5682072771076289 / 140737488355328 := by
    rw [roundDouble_of_pos _ (5) 5682072771076289 (by norm_num) (by norm_num) (by norm_num)
      (by norm_num)]
    norm_num
  have h14 :
      roundDouble ((5682072771076289 / 140737488355328) * (720575940379279 / 18014398509481984))
        = 3636526573488823 / 2251799813685248 := by
    rw [roundDouble_of_pos _ (0) 7273053146977646 (by norm_num) (by norm_num) (by norm_num)
      (by norm_num)]
    norm_num
  have h15 :
      roundDouble ((3636526573488823 / 2251799813685248) + (-(2619828433736175 / 140737488355328)))
        = -(4785091045786247 / 281474976710656) := by
    rw [roundDouble_of_neg _ (4) 4785091045786247 (by norm_num) (by norm_num) (by norm_num)
      (by norm_num)]
    norm_num
  have h16 :
      roundDouble ((-(4785091045786247 / 281474976710656)) * (720575940379279 / 18014398509481984))
        = -(6124916538606393 / 9007199254740992) := by
    rw [roundDouble_of_neg _ (-1) 6124916538606393 (by norm_num) (by norm_num) (by norm_num)
      (by norm_num)]
    norm_num
  have h17 :
      roundDouble ((-(6124916538606393 / 9007199254740992)) + (5644425001198093 / 2251799813685248))
        = 4113195866546495 / 2251799813685248 := by
    rw [roundDouble_of_pos_tie _ (0) 8226391733092989 8226391733092990 (by norm_num) (by norm_num)
      (by norm_num) (Or.inr (by norm_num)) (by norm_num)]
    norm_num
  have h18 :
      roundDouble ((-(900719925474099 / 4503599627370496)) * (4113195866546495 / 2251799813685248))
        = -(6581113386474391 / 18014398509481984) := by
    rw [roundDouble_of_neg _ (-2) 6581113386474391 (by norm_num) (by norm_num) (by norm_num)
      (by norm_num)]
    norm_num
  have h19 :
      roundDouble ((7050000380299847 / 2251799813685248) * (720575940379279 / 18014398509481984))
        = 1128000060847975 / 9007199254740992 := by
    rw [roundDouble_of_pos _ (-3) 4512000243391900 (by norm_num) (by norm_num) (by norm_num)
      (by norm_num)]
    norm_num
  have h20 :
      roundDouble ((1128000060847975 / 9007199254740992) + (-(5928493800088957 / 281474976710656)))
        = -(2946621899093729 / 140737488355328) := by
    rw [roundDouble_of_neg _ (4) 5893243798187458 (by norm_num) (by norm_num) (by norm_num)
      (by norm_num)]
    norm_num
  have h21 :
      roundDouble ((-(2946621899093729 / 140737488355328)) * (720575940379279 / 18014398509481984))
        = -(3771676030839971 / 4503599627370496) := by
    rw [roundDouble_of_neg _ (-1) 7543352061679942 (by norm_num) (by norm_num) (by norm_num)
      (by norm_num)]
    norm_num
  have h22 :
      roundDouble ((-(3771676030839971 / 4503599627370496)) + (1624347577963531 / 70368744177664))
        = 3130830279963313 / 140737488355328 := by
    rw [roundDouble_of_pos _ (4) 6261660559926626 (by norm_num) (by norm_num) (by norm_num)
      (by norm_num)]
    norm_num
  have h23 :
      roundDouble ((3130830279963313 / 140737488355328) * (720575940379279 / 18014398509481984))
        = 8014925516706077 / 9007199254740992 := by
    rw [roundDouble_of_pos _ (-1) 8014925516706077 (by norm_num) (by norm_num) (by norm_num)
      (by norm_num)]
    norm_num
  have h24 :
      roundDouble ((8014925516706077 / 9007199254740992) + (-(4770162583865133 / 562949953421312)))
        = -(4269229739071003 / 562949953421312) := by
    rw [roundDouble_of_neg _ (2) 8538459478142006 (by norm_num) (by norm_num) (by norm_num)
      (by norm_num)]
    norm_num
  have h25 :
      roundDouble ((-(4269229739071003 / 562949953421312)) * (720575940379279 / 18014398509481984))
        = -(5464614066010881 / 18014398509481984) := by
    rw [roundDouble_of_neg _ (-2) 5464614066010881 (by norm_num) (by norm_num) (by norm_num)
      (by norm_num)]
    norm_num
  have h26 :
      roundDouble ((-(5464614066010881 / 18014398509481984)) + 1.0)
        = 49022595482309 / 70368744177664 := by
    rw [roundDouble_of_pos_tie _ (-1) 6274892221735551 6274892221735552 (by norm_num) (by norm_num)
      (by norm_num) (Or.inr (by norm_num)) (by norm_num)]
    norm_num
  have h27 :
      roundDouble ((-(6581113386474391 / 18014398509481984)) / (49022595482309 / 70368744177664))
        = -(4723379900031395 / 9007199254740992) := by
    rw [roundDouble_of_neg _ (-1) 4723379900031395 (by norm_num) (by norm_num) (by norm_num)
      (by norm_num)]
    norm_num
  have hc : |(-(900719925474099 / 4503599627370496) : ℚ)|
      < 7566047373982433 / 18014398509481984 := by
    rw [abs_lt]
    constructor <;> norm_num
  simp only [invNormalCdfBodyR,
    h1, h2, h3, h4, h5, h6, h7, h8, h9, h10, h11, h12,
    h13, h14, h15, h16, h17, h18, h19, h20, h21, h22, h23, h24,
    h25, h26, h27,
    if_pos hc, if_true, Bool.false_eq_true, if_false, neg_neg]

/-- The central regime in binary64 at `up = 0.3` with `sup` not set. -/
theorem invNormalCdfBodyR_lower (log : ℚ → ℚ) :
    invNormalCdfBodyR roundDouble log false (5404319552844595 / 18014398509481984)
      = -(4723379900031397 / 9007199254740992) := by
  have h1 : roundDouble (25.44106049637) = 895127738838767 / 35184372088832 := by
    rw [roundDouble_of_pos _ (4) 7161021910710136 (by norm_num) (by norm_num) (by norm_num)
      (by norm_num)]
    norm_num
  have h2 : roundDouble (41.39119773534) = 1456323302322623 / 35184372088832 := by
    rw [roundDouble_of_pos _ (5) 5825293209290492 (by norm_num) (by norm_num) (by norm_num)
      (by norm_num)]
    norm_num
  have h3 : roundDouble (18.61500062529) = 2619828433736175 / 140737488355328 := by
    rw [roundDouble_of_pos _ (4) 5239656867472350 (by norm_num) (by norm_num) (by norm_num)
      (by norm_num)]
    norm_num
  have h4 : roundDouble (2.50662823884) = 5644425001198093 / 2251799813685248 := by
    rw [roundDouble_of_pos _ (1) 5644425001198093 (by norm_num) (by norm_num) (by norm_num)
      (by norm_num)]
    norm_num
  have h5 : roundDouble (3.13082909833) = 7050000380299847 / 2251799813685248 := by
    rw [roundDouble_of_pos _ (1) 7050000380299847 (by norm_num) (by norm_num) (by norm_num)
      (by norm_num)]
    norm_num
  have h6 : roundDouble (21.06224101826) = 5928493800088957 / 281474976710656 := by
    rw [roundDouble_of_pos _ (4) 5928493800088957 (by norm_num) (by norm_num) (by norm_num)
      (by norm_num)]
    norm_num
  have h7 : roundDouble (23.08336743743) = 1624347577963531 / 70368744177664 := by
    rw [roundDouble_of_pos _ (4) 6497390311854124 (by norm_num) (by norm_num) (by norm_num)
      (by norm_num)]
    norm_num
  have h8 : roundDouble (8.47351093090) = 4770162583865133 / 562949953421312 := by
    rw [roundDouble_of_pos _ (3) 4770162583865133 (by norm_num) (by norm_num) (by norm_num)
      (by norm_num)]
    norm_num
  have h9 : roundDouble (0.42) = 7566047373982433 / 18014398509481984 := by
    rw [roundDouble_of_pos _ (-2) 7566047373982433 (by norm_num) (by norm_num) (by norm_num)
      (by norm_num)]
    norm_num
  have h10 :
      roundDouble ((5404319552844595 / 18014398509481984) - 0.5)
        = -(3602879701896397 / 18014398509481984) := by
    rw [roundDouble_of_neg _ (-3) 7205759403792794 (by norm_num) (by norm_num) (by norm_num)
      (by norm_num)]
    norm_num
  have h11 :
      roundDouble ((-(3602879701896397 / 18014398509481984)) * (-(3602879701896397 / 18014398509481984)))
        = 1441151880758559 / 36028797018963968 := by
    rw [roundDouble_of_pos _ (-5) 5764607523034236 (by norm_num) (by norm_num) (by norm_num)
      (by norm_num)]
    norm_num
  have h12 :
      roundDouble ((-(895127738838767 / 35184372088832)) * (1441151880758559 / 36028797018963968))
        = -(572881752856811 / 562949953421312) := by
    rw [roundDouble_of_neg _ (0) 4583054022854488 (by norm_num) (by norm_num) (by norm_num)
      (by norm_num)]
    norm_num
  have h13 :
      roundDouble ((-(572881752856811 / 562949953421312)) + (1456323302322623 / 35184372088832))
        = 5682072771076289 / 140737488355328 := by
    rw [roundDouble_of_pos _ (5) 5682072771076289 (by norm_num) (by norm_num) (by norm_num)
      (by norm_num)]
    norm_num
  have h14 :
      roundDouble ((5682072771076289 / 140737488355328) * (1441151880758559 / 36028797018963968))
        = 7273053146977651 / 4503599627370496 := by
    rw [roundDouble_of_pos _ (0) 7273053146977651 (by norm_num) (by norm_num) (by norm_num)
      (by norm_num)]
    norm_num
  have h15 :
      roundDouble ((7273053146977651 / 4503599627370496) + (-(2619828433736175 / 140737488355328)))
        = -(4785091045786247 / 281474976710656) := by
    rw [roundDouble_of_neg _ (4) 4785091045786247 (by norm_num) (by norm_num) (by norm_num)
      (by norm_num)]
    norm_num
  have h16 :
      roundDouble ((-(4785091045786247 / 281474976710656)) * (1441151880758559 / 36028797018963968))
        = -(6124916538606397 / 9007199254740992) := by
    rw [roundDouble_of_neg _ (-1) 6124916538606397 (by norm_num) (by norm_num) (by norm_num)
      (by norm_num)]
    norm_num
  have h17 :
      roundDouble ((-(6124916538606397 / 9007199254740992)) + (5644425001198093 / 2251799813685248))
        = 2056597933273247 / 1125899906842624 := by
    rw [roundDouble_of_pos_tie _ (0) 8226391733092987 8226391733092988 (by norm_num) (by norm_num)
      (by norm_num) (Or.inr (by norm_num)) (by norm_num)]
    norm_num
  have h18 :
      roundDouble ((-(3602879701896397 / 18014398509481984)) * (2056597933273247 / 1125899906842624))
        = -(6581113386474391 / 18014398509481984) := by
    rw [roundDouble_of_neg _ (-2) 6581113386474391 (by norm_num) (by norm_num) (by norm_num)
      (by norm_num)]
    norm_num
  have h19 :
      roundDouble ((7050000380299847 / 2251799813685248) * (1441151880758559 / 36028797018963968))
        = 4512000243391903 / 36028797018963968 := by
    rw [roundDouble_of_pos _ (-3) 4512000243391903 (by norm_num) (by norm_num) (by norm_num)
      (by norm_num)]
    norm_num
  have h20 :
      roundDouble ((4512000243391903 / 36028797018963968) + (-(5928493800088957 / 281474976710656)))
        = -(2946621899093729 / 140737488355328) := by
    rw [roundDouble_of_neg _ (4) 5893243798187458 (by norm_num) (by norm_num) (by norm_num)
      (by norm_num)]
    norm_num
  have h21 :
      roundDouble ((-(2946621899093729 / 140737488355328)) * (1441151880758559 / 36028797018963968))
        = -(1885838015419987 / 2251799813685248) := by
    rw [roundDouble_of_neg _ (-1) 7543352061679948 (by norm_num) (by norm_num) (by norm_num)
      (by norm_num)]
    norm_num
  have h22 :
      roundDouble ((-(1885838015419987 / 2251799813685248)) + (1624347577963531 / 70368744177664))
        = 3130830279963313 / 140737488355328 := by
    rw [roundDouble_of_pos _ (4) 6261660559926626 (by norm_num) (by norm_num) (by norm_num)
      (by norm_num)]
    norm_num
  have h23 :
      roundDouble ((3130830279963313 / 140737488355328) * (1441151880758559 / 36028797018963968))
        = 8014925516706083 / 9007199254740992 := by
    rw [roundDouble_of_pos _ (-1) 8014925516706083 (by norm_num) (by norm_num) (by norm_num)
      (by norm_num)]
    norm_num
  have h24 :
      roundDouble ((8014925516706083 / 9007199254740992) + (-(4770162583865133 / 562949953421312)))
        = -(4269229739071003 / 562949953421312) := by
    rw [roundDouble_of_neg _ (2) 8538459478142006 (by norm_num) (by norm_num) (by norm_num)
      (by norm_num)]
    norm_num
  have h25 :
      roundDouble ((-(4269229739071003 / 562949953421312)) * (1441151880758559 / 36028797018963968))
        = -(5464614066010885 / 18014398509481984) := by
    rw [roundDouble_of_neg _ (-2) 5464614066010885 (by norm_num) (by norm_num) (by norm_num)
      (by norm_num)]
    norm_num
  have h26 :
      roundDouble ((-(5464614066010885 / 18014398509481984)) + 1.0)
        = 3137446110867775 / 4503599627370496 := by
    rw [roundDouble_of_pos_tie _ (-1) 6274892221735549 6274892221735550 (by norm_num) (by norm_num)
      (by norm_num) (Or.inr (by norm_num)) (by norm_num)]
    norm_num
  have h27 :
      roundDouble ((-(6581113386474391 / 18014398509481984)) / (3137446110867775 / 4503599627370496))
        = -(4723379900031397 / 9007199254740992) := by
    rw [roundDouble_of_neg _ (-1) 4723379900031397 (by norm_num) (by norm_num) (by norm_num)
      (by norm_num)]
    norm_num
  have hc : |(-(3602879701896397 / 18014398509481984) : ℚ)|
      < 7566047373982433 / 18014398509481984 := by
    rw [abs_lt]
    constructor <;> norm_num
  simp only [invNormalCdfBodyR,
    h1, h2, h3, h4, h5, h6, h7, h8, h9, h10, h11, h12,
    h13, h14, h15, h16, h17, h18, h19, h20, h21, h22, h23, h24,
    h25, h26, h27,
    if_pos hc, if_true, Bool.false_eq_true, if_false]

theorem roundDouble_half : roundDouble (0.5 : ℚ) = 0.5 := by
  rw [roundDouble_of_pos _ (-1) 4503599627370496 (by norm_num) (by norm_num) (by norm_num)
    (by norm_num)]
  norm_num

/-- Counterexample to C12 as stated, in binary64, at `p` the double nearest to `0.3`
(`0 < p < 1`, central regime): `1 - p` rounds to the double `0.7`, for which `up = 1 - 0.7` is
`0.30000000000000004`, not `p`, and for every function `log`
`invNormalCdf (1 - p) = 4723379900031395 / 2 ^ 53 = 0.5244005119066525` while
`-invNormalCdf p = 4723379900031397 / 2 ^ 53 = 0.5244005119066527`. -/
theorem invNormalCdf_symmetry_counterexample :
    roundDouble (3 / 10) = 5404319552844595 / 18014398509481984 ∧
    ((0 : ℚ) < 5404319552844595 / 18014398509481984 ∧
      (5404319552844595 / 18014398509481984 : ℚ) < 1) ∧
    ∀ log : ℚ → ℚ,
      invNormalCdfR roundDouble log (roundDouble (1 - 5404319552844595 / 18014398509481984))
        = 4723379900031395 / 9007199254740992 ∧
      -invNormalCdfR roundDouble log (5404319552844595 / 18014398509481984)
        = 4723379900031397 / 9007199254740992 ∧
      invNormalCdfR roundDouble log (roundDouble (1 - 5404319552844595 / 18014398509481984))
        ≠ -invNormalCdfR roundDouble log (5404319552844595 / 18014398509481984) := by
  have hp : roundDouble (3 / 10) = 5404319552844595 / 18014398509481984 := by
    rw [roundDouble_of_pos _ (-2) 5404319552844595 (by norm_num) (by norm_num) (by norm_num)
      (by norm_num)]
    norm_num
  have hp1 : roundDouble (1 - 5404319552844595 / 18014398509481984)
      = 3152519739159347 / 4503599627370496 := by
    rw [roundDouble_of_pos_tie _ (-1) 6305039478318694 6305039478318694 (by norm_num)
      (by norm_num) (by norm_num) (Or.inl rfl) (by norm_num)]
    norm_num
  have hup : roundDouble (1.0 - 3152519739159347 / 4503599627370496)
      = 1351079888211149 / 4503599627370496 := by
    rw [roundDouble_of_pos _ (-2) 5404319552844596 (by norm_num) (by norm_num) (by norm_num)
      (by norm_num)]
    norm_num
  have hA : ∀ log : ℚ → ℚ,
      invNormalCdfR roundDouble log (roundDouble (1 - 5404319552844595 / 18014398509481984))
        = 4723379900031395 / 9007199254740992 := by
    intro log
    have hs : (3152519739159347 / 4503599627370496 : ℚ) > 0.5 := by norm_num
    rw [hp1, invNormalCdfR_eq_body]
    simp only [hs, decide_True, if_true, hup]
    exact invNormalCdfBodyR_upper log
  have hB : ∀ log : ℚ → ℚ,
      invNormalCdfR roundDouble log (5404319552844595 / 18014398509481984)
        = -(4723379900031397 / 9007199254740992) := by
    intro log
    have hs : ¬ ((5404319552844595 / 18014398509481984 : ℚ) > 0.5) := by norm_num
    rw [invNormalCdfR_eq_body]
    simp only [hs, decide_False, if_false]
    exact invNormalCdfBodyR_lower log
  refine ⟨hp, ⟨by norm_num, by norm_num⟩, fun log => ⟨hA log, ?_, ?_⟩⟩
  · rw [hB log, neg_neg]
  · rw [hA log, hB log]
    norm_num

/-- Witness of the amended C12 in binary64 at `p = 1/4`, where `1 - p = 3/4` and
`1 - 3/4 = 1/4` are exact. -/
theorem invNormalCdf_symmetry_rounded_witness :
    invNormalCdfR roundDouble (fun x : ℚ => x) (roundDouble (1 - 1 / 4))
      = -invNormalCdfR roundDouble (fun x : ℚ => x) (1 / 4) :=
  invNormalCdf_symmetry_rounded roundDouble roundDouble_monotone roundDouble_zero
    roundDouble_half (roundDouble_pos _ (by norm_num)) (fun x : ℚ => x) (1 / 4)
    (Or.inr (by
      have h1 : roundDouble (1 - 1 / 4) = 3 / 4 := by
        rw [roundDouble_of_pos _ (-1) 6755399441055744 (by norm_num) (by norm_num)
          (by norm_num) (by norm_num)]
        norm_num
      have h2 : roundDouble (1 - 3 / 4) = 1 / 4 := by
        rw [roundDouble_of_pos _ (-2) 4503599627370496 (by norm_num) (by norm_num)
          (by norm_num) (by norm_num)]
        norm_num
      rw [h1, h2]))

/-! ## `normalCdf` in binary64: saturation at the end points -/

section GaussianRounded

variable {α : Type} [LinearOrderedField α]

theorem normalCdfR_of_neg (rnd : α → α) (exp : α → α) (x : α) (h1 : -10 ≤ x) (h2 : x < 0) :
    normalCdfR rnd exp x = rnd (1.0 - normalCdfR rnd exp (-x)) := by
  have h3 : ¬ x < -10.0 := by norm_num; exact h1
  have h4 : ¬ x > 10.0 := by norm_num; linarith
  have h5 : x < 0.0 := by norm_num; exact h2
  rw [normalCdfR]
  simp only [if_neg h3, if_neg h4, dif_pos h5]

theorem normalCdfR_of_nonneg (rnd : α → α) (exp : α → α) (x : α) (h1 : 0 ≤ x) (h2 : x ≤ 10) :
    normalCdfR rnd exp x
      = rnd (1.0 - rnd (rnd (exp (rnd (rnd (-0.5 * x) * x)) / rnd 2.506628274631)
          * normalCdfPolR rnd x)) := by
  have h3 : ¬ x < -10.0 := by norm_num; linarith
  have h4 : ¬ x > 10.0 := by norm_num; exact h2
  have h5 : ¬ x < 0.0 := by norm_num; exact h1
  have h6 : ¬ (x < -10.0 ∨ 10.0 < x) := by
    rintro (h | h)
    · exact h3 h
    · exact h4 h
  rw [normalCdfR]
  simp only [if_neg h3, if_neg h4, dif_neg h5, normalDensR, if_neg h6, normalCdfPolR]

end GaussianRounded

/-- The polynomial `pol` of `normalCdf` at `x = 10` in binary64. -/
theorem normalCdfPolR_ten :
    normalCdfPolR roundDouble 10 = 7276681600961519 / 72057594037927936 := by
  have h1 : roundDouble (0.2316419) = 4172889498093575 / 18014398509481984 := by
    rw [roundDouble_of_pos _ (-3) 8345778996187150 (by norm_num) (by norm_num) (by norm_num)
      (by norm_num)]
    norm_num
  have h2 : roundDouble (0.319381530) = 1438366539497019 / 4503599627370496 := by
    rw [roundDouble_of_pos _ (-2) 5753466157988076 (by norm_num) (by norm_num) (by norm_num)
      (by norm_num)]
    norm_num
  have h3 : roundDouble (0.356563782) = 6423282062996059 / 18014398509481984 := by
    rw [roundDouble_of_pos _ (-2) 6423282062996059 (by norm_num) (by norm_num) (by norm_num)
      (by norm_num)]
    norm_num
  have h4 : roundDouble (1.781477937) = 1002882921655245 / 562949953421312 := by
    rw [roundDouble_of_pos _ (0) 8023063373241960 (by norm_num) (by norm_num) (by norm_num)
      (by norm_num)]
    norm_num
  have h5 : roundDouble (1.821255978) = 512637983991693 / 281474976710656 := by
    rw [roundDouble_of_pos _ (0) 8202207743867088 (by norm_num) (by norm_num) (by norm_num)
      (by norm_num)]
    norm_num
  have h6 : roundDouble (1.330274429) = 5991023422744899 / 4503599627370496 := by
    rw [roundDouble_of_pos _ (0) 5991023422744899 (by norm_num) (by norm_num) (by norm_num)
      (by norm_num)]
    norm_num
  have h7 :
      roundDouble ((4172889498093575 / 18014398509481984) * 10)
        = 5216111872616969 / 2251799813685248 := by
    rw [roundDouble_of_pos _ (1) 5216111872616969 (by norm_num) (by norm_num) (by norm_num)
      (by norm_num)]
    norm_num
  have h8 :
      roundDouble (1.0 + (5216111872616969 / 2251799813685248))
        = 7467911686302217 / 2251799813685248 := by
    rw [roundDouble_of_pos _ (1) 7467911686302217 (by norm_num) (by norm_num) (by norm_num)
      (by norm_num)]
    norm_num
  have h9 :
      roundDouble (1.0 / (7467911686302217 / 2251799813685248))
        = 169746329827839 / 562949953421312 := by
    rw [roundDouble_of_pos _ (-2) 5431882554490848 (by norm_num) (by norm_num) (by norm_num)
      (by norm_num)]
    norm_num
  have h10 :
      roundDouble ((169746329827839 / 562949953421312) * (5991023422744899 / 4503599627370496))
        = 3612947231785187 / 9007199254740992 := by
    rw [roundDouble_of_pos _ (-2) 7225894463570374 (by norm_num) (by norm_num) (by norm_num)
      (by norm_num)]
    norm_num
  have h11 :
      roundDouble ((-(512637983991693 / 281474976710656)) + (3612947231785187 / 9007199254740992))
        = -(3197867063987247 / 2251799813685248) := by
    rw [roundDouble_of_neg_tie _ (0) 6395734127974494 6395734127974494 (by norm_num) (by norm_num)
      (by norm_num) (Or.inl rfl) (by norm_num)]
    norm_num
  have h12 :
      roundDouble ((169746329827839 / 562949953421312) * (-(3197867063987247 / 2251799813685248)))
        = -(7714024226702951 / 18014398509481984) := by
    rw [roundDouble_of_neg _ (-2) 7714024226702951 (by norm_num) (by norm_num) (by norm_num)
      (by norm_num)]
    norm_num
  have h13 :
      roundDouble ((1002882921655245 / 562949953421312) + (-(7714024226702951 / 18014398509481984)))
        = 3047278658283111 / 2251799813685248 := by
    rw [roundDouble_of_pos _ (0) 6094557316566222 (by norm_num) (by norm_num) (by norm_num)
      (by norm_num)]
    norm_num
  have h14 :
      roundDouble ((169746329827839 / 562949953421312) * (3047278658283111 / 2251799813685248))
        = 3675384392964955 / 9007199254740992 := by
    rw [roundDouble_of_pos _ (-2) 7350768785929910 (by norm_num) (by norm_num) (by norm_num)
      (by norm_num)]
    norm_num
  have h15 :
      roundDouble ((-(6423282062996059 / 18014398509481984)) + (3675384392964955 / 9007199254740992))
        = 927486722933851 / 18014398509481984 := by
    rw [roundDouble_of_pos _ (-5) 7419893783470808 (by norm_num) (by norm_num) (by norm_num)
      (by norm_num)]
    norm_num
  have h16 :
      roundDouble ((169746329827839 / 562949953421312) * (927486722933851 / 18014398509481984))
        = 8949283891415177 / 576460752303423488 := by
    rw [roundDouble_of_pos _ (-7) 8949283891415177 (by norm_num) (by norm_num) (by norm_num)
      (by norm_num)]
    norm_num
  have h17 :
      roundDouble ((1438366539497019 / 4503599627370496) + (8949283891415177 / 576460752303423488))
        = 377070704974675 / 1125899906842624 := by
    rw [roundDouble_of_pos _ (-2) 6033131279594800 (by norm_num) (by norm_num) (by norm_num)
      (by norm_num)]
    norm_num
  have h18 :
      roundDouble ((169746329827839 / 562949953421312) * (377070704974675 / 1125899906842624))
        = 7276681600961519 / 72057594037927936 := by
    rw [roundDouble_of_pos _ (-4) 7276681600961519 (by norm_num) (by norm_num) (by norm_num)
      (by norm_num)]
    norm_num
  simp only [normalCdfPolR,
    h1, h2, h3, h4, h5, h6, h7, h8, h9, h10, h11, h12,
    h13, h14, h15, h16, h17, h18]

/-- Claim C11 (saturation at the end points), in binary64 arithmetic.  For every function `exp`
whose value at `-50`, the computed argument `-0.5 * 10 * 10`, lies between 0 and `2 ^ (-60)`
(a library `exp` returns about `1.9e-22` there): `normalCdf (-10) = 0` and `normalCdf 10 = 1`
exactly.  At the end points the comparisons `x < -10.0` and `x > 10.0` are false and the
polynomial branch computes `1.0 - pdf * pol` with `0 ≤ pdf * pol ≤ 2 ^ (-60)`, less than half
an ulp of 1, so the subtraction rounds to `1.0`; the mirror branch then returns
`1.0 - 1.0 = 0`. -/
theorem normalCdf_saturation_binary64 (exp : ℚ → ℚ) (h0 : 0 ≤ exp (-50))
    (h1 : exp (-50) ≤ 1 / 2 ^ 60) :
    normalCdfR roundDouble exp (-10) = 0 ∧ normalCdfR roundDouble exp 10 = 1 := by
  have m1 : roundDouble (-0.5 * 10) = -5 := by
    rw [roundDouble_of_neg _ 2 5629499534213120 (by norm_num) (by norm_num) (by norm_num)
      (by norm_num)]
    norm_num
  have m2 : roundDouble (-5 * 10) = -50 := by
    rw [roundDouble_of_neg _ 5 7036874417766400 (by norm_num) (by norm_num) (by norm_num)
      (by norm_num)]
    norm_num
  have hc : roundDouble 2.506628274631 = 1411106270448065 / 562949953421312 := by
    rw [roundDouble_of_pos _ 1 5644425081792260 (by norm_num) (by norm_num) (by norm_num)
      (by norm_num)]
    norm_num
  have hsmall : roundDouble (1 / 2 ^ 60) = 1 / 2 ^ 60 := by
    rw [roundDouble_of_pos _ (-60) 4503599627370496 (by norm_num) (by norm_num) (by norm_num)
      (by norm_num)]
    norm_num
  have hlo : roundDouble (1 - 1 / 2 ^ 60) = 1 := by
    rw [roundDouble_of_pos _ (-1) 9007199254740992 (by norm_num) (by norm_num) (by norm_num)
      (by norm_num)]
    norm_num
  have hone : roundDouble 1 = 1 := by
    rw [roundDouble_of_pos _ 0 4503599627370496 (by norm_num) (by norm_num) (by norm_num)
      (by norm_num)]
    norm_num
  have hpdf0 : 0 ≤ roundDouble (exp (-50) / (1411106270448065 / 562949953421312)) := by
    have := roundDouble_monotone
      (div_nonneg h0 (by norm_num) : (0 : ℚ) ≤ exp (-50) / (1411106270448065 / 562949953421312))
    rwa [roundDouble_zero] at this
  have hpdf1 : roundDouble (exp (-50) / (1411106270448065 / 562949953421312)) ≤ 1 / 2 ^ 60 := by
    have h2 : exp (-50) / (1411106270448065 / 562949953421312) ≤ 1 / 2 ^ 60 :=
      le_trans (div_le_self h0 (by norm_num)) h1
    have := roundDouble_monotone h2
    rwa [hsmall] at this
  have hy0 : 0 ≤ roundDouble (roundDouble (exp (-50) / (1411106270448065 / 562949953421312))
      * (7276681600961519 / 72057594037927936)) := by
    have := roundDouble_monotone (mul_nonneg hpdf0 (by norm_num) :
      (0 : ℚ) ≤ roundDouble (exp (-50) / (1411106270448065 / 562949953421312))
        * (7276681600961519 / 72057594037927936))
    rwa [roundDouble_zero] at this
  have hy1 : roundDouble (roundDouble (exp (-50) / (1411106270448065 / 562949953421312))
      * (7276681600961519 / 72057594037927936)) ≤ 1 / 2 ^ 60 := by
    have h2 : roundDouble (exp (-50) / (1411106270448065 / 562949953421312))
        * (7276681600961519 / 72057594037927936) ≤ 1 / 2 ^ 60 :=
      le_trans (mul_le_of_le_one_right hpdf0 (by norm_num)) hpdf1
    have := roundDouble_monotone h2
    rwa [hsmall] at this
  have hten : normalCdfR roundDouble exp 10 = 1 := by
    rw [normalCdfR_of_nonneg roundDouble exp 10 (by norm_num) (by norm_num), normalCdfPolR_ten,
      m1, m2, hc]
    apply le_antisymm
    · have := roundDouble_monotone (show (1.0 : ℚ) - roundDouble (roundDouble (exp (-50)
          / (1411106270448065 / 562949953421312)) * (7276681600961519 / 72057594037927936)) ≤ 1 by
        norm_num; exact hy0)
      rwa [hone] at this
    · have := roundDouble_monotone (show (1 : ℚ) - 1 / 2 ^ 60 ≤ 1.0 - roundDouble (roundDouble
          (exp (-50) / (1411106270448065 / 562949953421312))
            * (7276681600961519 / 72057594037927936)) by
        norm_num at hy1 ⊢; linarith)
      rwa [hlo] at this
  refine ⟨?_, hten⟩
  rw [normalCdfR_of_neg roundDouble exp (-10) (by norm_num) (by norm_num), neg_neg, hten,
    show ((1.0 : ℚ) - 1) = 0 by norm_num, roundDouble_zero]

/-- Witness of C11 in binary64, with a function `exp` that returns `2 ^ (-72)`, about
`2.1e-22`. -/
theorem normalCdf_saturation_binary64_witness :
    normalCdfR roundDouble (fun _ : ℚ => 1 / 2 ^ 72) (-10) = 0 ∧
    normalCdfR roundDouble (fun _ : ℚ => 1 / 2 ^ 72) 10 = 1 :=
  normalCdf_saturation_binary64 (fun _ : ℚ => 1 / 2 ^ 72) (by norm_num) (by norm_num)

/-! ## The payoff in rounded arithmetic -/

section PayoffRounded

variable {α : Type} [LinearOrderedField α]

end PayoffRounded

/-! ## The payoff in binary64: counterexample and witness -/

end CompFinance
